import Mathlib

/-!
Shallow embedding of the `sqlbatch` package (repository behrang/sqlbatch).

The repository contains three Go "batch executor" variants:

* `Handler.Batch` (sqlbatch.go, first document): begins its own transaction,
  defers `tx.Rollback()`, runs the command loop with `Scan`/`ScanOnce`
  callbacks that return only an error, then calls `tx.Commit()` and returns
  `nil` — the value returned by `tx.Commit()` is discarded.
* `Batch` (sqlbatch.go, second document): receives an already-open
  transaction, returns `([]interface{}, error)`, defers `rows.Close()` for
  every opened cursor, threads a `results` slice through the loop
  (`ArgsFunc` receives it), and never commits or rolls back itself.
* `Part001.Batch` (src/unnamed/part_001): an earlier version of the
  results-returning `Batch` with fields `Memo`/`Scan`/`ScanOnce` and no
  deferred `rows.Close()`.

The database driver is modelled as an environment: for each command index and
resolved argument list it prescribes the outcome of `tx.Exec` (or of
`result.RowsAffected`) and of `tx.Query` (the row list, the value `rows.Err()`
reports after the read phase, and the value `rows.Close()` reports).
Callbacks are modelled as pure functions into `Except`.  Each run is
instrumented with an event trace recording argument resolution, statement
execution, callback invocations, cursor closes and transaction finalization.
-/

/-- Outcome of `tx.Exec` followed by `result.RowsAffected()` for one command:
either `tx.Exec` fails, or `RowsAffected` fails, or an affected-row count is
reported. -/
inductive ExecRes (E : Type) where
  | execErr (e : E)
  | affectedErr (e : E)
  | ok (affected : Int)
  deriving DecidableEq

/-- Outcome of a successful `tx.Query`: the rows the cursor yields, the error
`rows.Err()` reports when consulted after the read phase, and the error
`rows.Close()` reports. -/
structure QueryRes (E R : Type) where
  rows : List R
  iterErr : Option E
  closeErr : Option E
  deriving DecidableEq

/-- Driver response for one command: the exec-path outcome and the query-path
outcome (only one is consulted, depending on `Affect`). -/
structure DbOut (E R : Type) where
  exec : ExecRes E
  query : Except E (QueryRes E R)

/-- Errors surfaced by the batch executors: a driver/callback error passed
through verbatim, or the row-count-mismatch error built by
`fmt.Errorf(expectedDifferentAffectedRows, expected, affected, query)`,
which carries the expected count, the actual count and the query text. -/
inductive BatchErr (E : Type) where
  | err (e : E)
  | rowCountMismatch (expected actual : Int) (query : String)
  deriving DecidableEq

/-- Observable events of a batch run.  `argsCall i r` records that command
`i`'s `ArgsFunc` was invoked with results snapshot `r`; `execCall`/`queryCall`
record the statement reaching the driver with the resolved arguments;
`readOneCall i` and `readAllCall i k` record callback invocations (`k` is the
row position); `closeCall i` records a `rows.Close()` on command `i`'s cursor;
`commitCall`/`rollbackCall` record transaction finalization. -/
inductive Ev (V A : Type) where
  | argsCall (i : Nat) (snapshot : List (Option V))
  | execCall (i : Nat) (args : List A)
  | queryCall (i : Nat) (args : List A)
  | readOneCall (i : Nat)
  | readAllCall (i : Nat) (row : Nat)
  | closeCall (i : Nat)
  | commitCall
  | rollbackCall
  deriving DecidableEq

/-- The command index an event belongs to (`none` for commit/rollback). -/
def Ev.cmdIdx {V A : Type} : Ev V A → Option Nat
  | .argsCall i _ => some i
  | .execCall i _ => some i
  | .queryCall i _ => some i
  | .readOneCall i => some i
  | .readAllCall i _ => some i
  | .closeCall i => some i
  | .commitCall => none
  | .rollbackCall => none

/-- Is this event a commit or rollback on the transaction? -/
def isFinalizeEv {V A : Type} : Ev V A → Bool
  | .commitCall => true
  | .rollbackCall => true
  | _ => false

/-- Is this event an invocation of command `i`'s row-fold callback? -/
def isReadAllEv {V A : Type} (i : Nat) : Ev V A → Bool
  | .readAllCall j _ => j == i
  | _ => false

/-- Is this event an invocation of command `i`'s single-row callback? -/
def isReadOneEv {V A : Type} (i : Nat) : Ev V A → Bool
  | .readOneCall j => j == i
  | _ => false

/-- The row loop `for rows.Next() { memo, err = f(memo, rows.Scan); ... }`:
folds `f` over the rows from `memo`, stopping at the first callback error,
and records one `readAllCall i k` event per invocation (`k` starts at the
given row position). -/
def foldRows {V A E R : Type} (f : V → R → Except E V) (i : Nat) :
    List R → Nat → V → Except E V × List (Ev V A)
  | [], _, memo => (Except.ok memo, [])
  | r :: rs, k, memo =>
    match f memo r with
    | Except.error e => (Except.error e, [Ev.readAllCall i k])
    | Except.ok m =>
      let rest := foldRows f i rs (k + 1) m
      (rest.1, Ev.readAllCall i k :: rest.2)

/-- `Command` of the results-returning `Batch` in sqlbatch.go (second
document): `Query`, optional `ArgsFunc` over the current results (supersedes
`Args`), `Args`, `Init` accumulator seed, optional `ReadAll` fold callback,
optional `ReadOne` single-row callback (takes precedence over `ReadAll`),
and the `Affect` row-count expectation. -/
structure Command (V A E R : Type) where
  Query : String
  ArgsFunc : Option (List (Option V) → List A)
  Args : List A
  Init : V
  ReadAll : Option (V → R → Except E V)
  ReadOne : Option (R → Except E V)
  Affect : Int

/-- `args := command.Args; if command.ArgsFunc != nil { args = command.ArgsFunc(results) }` -/
def resolveArgs {V A E R : Type} (c : Command V A E R)
    (results : List (Option V)) : List A :=
  match c.ArgsFunc with
  | some f => f results
  | none => c.Args

/-- The argument-resolution event: present exactly when `ArgsFunc` is set. -/
def argsEvents {V A E R : Type} (c : Command V A E R) (i : Nat)
    (results : List (Option V)) : List (Ev V A) :=
  match c.ArgsFunc with
  | some _ => [Ev.argsCall i results]
  | none => []

/-- Outcome of processing one command: `slot` is the value command `i` leaves
in `results[i]` (`none` when the source never assigns it), `err` the error it
returns with (if any), `evs` its events in order, and `opened` whether a
cursor was opened (and hence a deferred `rows.Close()` registered). -/
structure StepOut (V A E : Type) where
  slot : Option V
  err : Option (BatchErr E)
  evs : List (Ev V A)
  opened : Bool
  deriving DecidableEq

/-- The tail of the read path in the results-returning sqlbatch.go `Batch`:
`if err = rows.Err(); err != nil { return results, err }` (no explicit close;
the deferred close covers it) and then `err = rows.Close(); if err != nil
{ return results, err }`. -/
def afterRead {V A E R : Type} (i : Nat) (q : QueryRes E R) (slot : Option V)
    (evs : List (Ev V A)) : StepOut V A E :=
  match q.iterErr with
  | some e => ⟨slot, some (BatchErr.err e), evs, true⟩
  | none =>
    match q.closeErr with
    | some e => ⟨slot, some (BatchErr.err e), evs ++ [Ev.closeCall i], true⟩
    | none => ⟨slot, none, evs ++ [Ev.closeCall i], true⟩

/-- The write-check branch of the loop body (`command.Affect != 0`): exec the
statement, get the affected count, compare against
`expected := max(Affect, 0)`.  `x` is the driver's exec-path outcome and
`evs0` the argument-resolution events. -/
def writeStep {V A E : Type} (i : Nat) (affect : Int) (query : String)
    (args : List A) (evs0 : List (Ev V A)) (x : ExecRes E) : StepOut V A E :=
  match x with
  | ExecRes.execErr e =>
    ⟨none, some (BatchErr.err e), evs0 ++ [Ev.execCall i args], false⟩
  | ExecRes.affectedErr e =>
    ⟨none, some (BatchErr.err e), evs0 ++ [Ev.execCall i args], false⟩
  | ExecRes.ok affected =>
    let expected := if affect < 0 then 0 else affect
    if expected ≠ affected then
      ⟨none, some (BatchErr.rowCountMismatch expected affected query),
        evs0 ++ [Ev.execCall i args], false⟩
    else ⟨none, none, evs0 ++ [Ev.execCall i args], false⟩

/-- The read branch of the loop body after a successful `tx.Query`:
`ReadOne` (if set) is applied to the first row only; otherwise `ReadAll`
folds over all rows from `Init`; otherwise no rows are visited.  `base` is
the events emitted so far in this iteration. -/
def readStep {V A E R : Type} (i : Nat) (c : Command V A E R) (q : QueryRes E R)
    (base : List (Ev V A)) : StepOut V A E :=
  match c.ReadOne with
  | some g =>
    match q.rows with
    | [] => afterRead i q none base
    | r :: _ =>
      match g r with
      | Except.error e =>
        ⟨none, some (BatchErr.err e), base ++ [Ev.readOneCall i], true⟩
      | Except.ok v => afterRead i q (some v) (base ++ [Ev.readOneCall i])
  | none =>
    match c.ReadAll with
    | some f =>
      let fr := foldRows f i q.rows 0 c.Init
      match fr.1 with
      | Except.error e => ⟨none, some (BatchErr.err e), base ++ fr.2, true⟩
      | Except.ok memo => afterRead i q (some memo) (base ++ fr.2)
    | none => afterRead i q none base

/-- One iteration of the loop of the results-returning sqlbatch.go `Batch`
for command `i`, given the current `results` slice. -/
def stepCmd {V A E R : Type} (db : Nat → List A → DbOut E R) (i : Nat)
    (c : Command V A E R) (results : List (Option V)) : StepOut V A E :=
  let args := resolveArgs c results
  let aevs : List (Ev V A) := argsEvents c i results
  if c.Affect ≠ 0 then writeStep i c.Affect c.Query args aevs ((db i args).exec)
  else
    match (db i args).query with
    | Except.error e =>
      ⟨none, some (BatchErr.err e), aevs ++ [Ev.queryCall i args], false⟩
    | Except.ok q => readStep i c q (aevs ++ [Ev.queryCall i args])

/-- State returned by the command loop: the results slice, the error (if the
loop aborted), the events emitted so far, and the stack of cursor indices
whose deferred `rows.Close()` is still pending (most recent first). -/
structure RunOut (V A E : Type) where
  results : List (Option V)
  err : Option (BatchErr E)
  evs : List (Ev V A)
  deferred : List Nat
  deriving DecidableEq

/-- The command loop of the results-returning sqlbatch.go `Batch`, starting
at absolute index `i`: process each command in order, stop at the first
error. -/
def runBatch {V A E R : Type} (db : Nat → List A → DbOut E R) :
    Nat → List (Option V) → List Nat → List (Command V A E R) → RunOut V A E
  | _, results, deferred, [] => ⟨results, none, [], deferred⟩
  | i, results, deferred, c :: rest =>
    let s := stepCmd db i c results
    let results1 := results.set i s.slot
    let deferred1 := if s.opened then i :: deferred else deferred
    match s.err with
    | some e => ⟨results1, some e, s.evs, deferred1⟩
    | none =>
      let t := runBatch db (i + 1) results1 deferred1 rest
      ⟨t.results, t.err, s.evs ++ t.evs, t.deferred⟩

/-- What a call to the results-returning `Batch` yields: the results slice,
the error, and the event trace (the deferred `rows.Close()` calls fire, in
LIFO order, on every return path). -/
structure BatchOut (V A E : Type) where
  results : List (Option V)
  err : Option (BatchErr E)
  trace : List (Ev V A)
  deriving DecidableEq

/-- The results-returning `Batch(tx, commands)` of sqlbatch.go (second
document): `results := make([]interface{}, len(commands))`, the command
loop, and `return results, nil`; it never calls `tx.Commit` or
`tx.Rollback`. -/
def Batch {V A E R : Type} (db : Nat → List A → DbOut E R)
    (cmds : List (Command V A E R)) : BatchOut V A E :=
  let t := runBatch db 0 (List.replicate cmds.length none) [] cmds
  ⟨t.results, t.err, t.evs ++ t.deferred.map Ev.closeCall⟩

namespace Part001

/-- `Command` of the earlier results-returning `Batch` kept in
src/unnamed/part_001: same shape as the current one but with the accumulator
seed named `Memo`, the fold callback named `Scan` and the single-row callback
named `ScanOnce` (which takes precedence over `Scan`). -/
structure Command (V A E R : Type) where
  Query : String
  ArgsFunc : Option (List (Option V) → List A)
  Args : List A
  Memo : V
  Scan : Option (V → R → Except E V)
  ScanOnce : Option (R → Except E V)
  Affect : Int

/-- Read-path tail in part_001's `Batch`: there is no deferred close; the
iteration-fault path runs `rows.Close(); return results, err` (the close
error is discarded there) and the normal path checks `rows.Close()`'s
error. -/
def afterRead {V A E R : Type} (i : Nat) (q : QueryRes E R) (slot : Option V)
    (evs : List (Ev V A)) : StepOut V A E :=
  match q.iterErr with
  | some e => ⟨slot, some (BatchErr.err e), evs ++ [Ev.closeCall i], false⟩
  | none =>
    match q.closeErr with
    | some e => ⟨slot, some (BatchErr.err e), evs ++ [Ev.closeCall i], false⟩
    | none => ⟨slot, none, evs ++ [Ev.closeCall i], false⟩

/-- The read branch of part_001's loop after a successful `tx.Query`.  A
`ScanOnce`/`Scan` callback error returns immediately **without** closing the
cursor (there is no `defer rows.Close()` in this variant). -/
def readStep {V A E R : Type} (i : Nat) (c : Command V A E R) (q : QueryRes E R)
    (base : List (Ev V A)) : StepOut V A E :=
  match c.ScanOnce with
  | some g =>
    match q.rows with
    | [] => afterRead i q none base
    | r :: _ =>
      match g r with
      | Except.error e =>
        ⟨none, some (BatchErr.err e), base ++ [Ev.readOneCall i], false⟩
      | Except.ok v => afterRead i q (some v) (base ++ [Ev.readOneCall i])
  | none =>
    match c.Scan with
    | some f =>
      let fr := foldRows f i q.rows 0 c.Memo
      match fr.1 with
      | Except.error e => ⟨none, some (BatchErr.err e), base ++ fr.2, false⟩
      | Except.ok memo => afterRead i q (some memo) (base ++ fr.2)
    | none => afterRead i q none base

/-- Argument resolution in part_001: same as in the current variant. -/
def resolveArgs {V A E R : Type} (c : Command V A E R)
    (results : List (Option V)) : List A :=
  match c.ArgsFunc with
  | some f => f results
  | none => c.Args

/-- The argument-resolution event in part_001. -/
def argsEvents {V A E R : Type} (c : Command V A E R) (i : Nat)
    (results : List (Option V)) : List (Ev V A) :=
  match c.ArgsFunc with
  | some _ => [Ev.argsCall i results]
  | none => []

/-- One iteration of part_001's `Batch` loop for command `i` (the write
branch is textually identical to the current variant's). -/
def stepCmd {V A E R : Type} (db : Nat → List A → DbOut E R) (i : Nat)
    (c : Command V A E R) (results : List (Option V)) : StepOut V A E :=
  let args := resolveArgs c results
  let aevs : List (Ev V A) := argsEvents c i results
  if c.Affect ≠ 0 then writeStep i c.Affect c.Query args aevs ((db i args).exec)
  else
    match (db i args).query with
    | Except.error e =>
      ⟨none, some (BatchErr.err e), aevs ++ [Ev.queryCall i args], false⟩
    | Except.ok q => readStep i c q (aevs ++ [Ev.queryCall i args])

/-- The command loop of part_001's `Batch`, starting at absolute index `i`. -/
def runBatch {V A E R : Type} (db : Nat → List A → DbOut E R) :
    Nat → List (Option V) → List (Command V A E R) → BatchOut V A E
  | _, results, [] => ⟨results, none, []⟩
  | i, results, c :: rest =>
    let s := stepCmd db i c results
    let results1 := results.set i s.slot
    match s.err with
    | some e => ⟨results1, some e, s.evs⟩
    | none =>
      let t := runBatch db (i + 1) results1 rest
      ⟨t.results, t.err, s.evs ++ t.trace⟩

/-- part_001's `Batch(tx, commands)`: allocates the results slice, runs the
loop, and returns; like the current results-returning variant it never calls
`tx.Commit` or `tx.Rollback`. -/
def Batch {V A E R : Type} (db : Nat → List A → DbOut E R)
    (cmds : List (Command V A E R)) : BatchOut V A E :=
  runBatch db 0 (List.replicate cmds.length none) cmds

end Part001

namespace Handler

/-- `Command` of the `Handler.Batch` variant (sqlbatch.go, first document):
`ArgsFunc` takes no arguments, and `ScanOnce`/`Scan` return only an error
(`ScanOnce` takes precedence over `Scan`); no results are produced. -/
structure Command (A E R : Type) where
  Query : String
  ArgsFunc : Option (Unit → List A)
  Args : List A
  ScanOnce : Option (R → Option E)
  Scan : Option (R → Option E)
  Affect : Int

/-- The `for rows.Next() { err = command.Scan(rows.Scan); if err != nil
{ return err } }` loop: first callback error, if any. -/
def scanAll {E R : Type} (f : R → Option E) : List R → Option E
  | [] => none
  | r :: rs =>
    match f r with
    | some e => some e
    | none => scanAll f rs

/-- One iteration of `Handler.Batch`'s loop for command `i`: the error it
returns with, if any (this variant stores no results). -/
def stepCmd {A E R : Type} (db : Nat → List A → DbOut E R) (i : Nat)
    (c : Command A E R) : Option (BatchErr E) :=
  let args := match c.ArgsFunc with
    | some f => f ()
    | none => c.Args
  if c.Affect ≠ 0 then
    match (db i args).exec with
    | ExecRes.execErr e => some (BatchErr.err e)
    | ExecRes.affectedErr e => some (BatchErr.err e)
    | ExecRes.ok affected =>
      let expected := if c.Affect < 0 then 0 else c.Affect
      if expected ≠ affected then
        some (BatchErr.rowCountMismatch expected affected c.Query)
      else none
  else
    match (db i args).query with
    | Except.error e => some (BatchErr.err e)
    | Except.ok q =>
      let scanErr : Option E :=
        match c.ScanOnce with
        | some g =>
          match q.rows with
          | [] => none
          | r :: _ => g r
        | none =>
          match c.Scan with
          | some f => scanAll f q.rows
          | none => none
      match scanErr with
      | some e => some (BatchErr.err e)
      | none =>
        match q.iterErr with
        | some e => some (BatchErr.err e)
        | none =>
          match q.closeErr with
          | some e => some (BatchErr.err e)
          | none => none

/-- `Handler.Batch`'s command loop: first error, if any. -/
def runCmds {A E R : Type} (db : Nat → List A → DbOut E R) :
    Nat → List (Command A E R) → Option (BatchErr E)
  | _, [] => none
  | i, c :: rest =>
    match stepCmd db i c with
    | some e => some e
    | none => runCmds db (i + 1) rest

/-- Finalization state of a `database/sql` transaction handle: once
committed or rolled back it is done, and further `Commit`/`Rollback` calls
are no-ops (they report `ErrTxDone`). -/
inductive TxState where
  | openTx
  | committed
  | rolledBack
  deriving DecidableEq

/-- `tx.Commit()`'s effect on the handle state. -/
def txCommit : TxState → TxState
  | TxState.openTx => TxState.committed
  | s => s

/-- `tx.Rollback()`'s effect on the handle state. -/
def txRollback : TxState → TxState
  | TxState.openTx => TxState.rolledBack
  | s => s

/-- The collaborators `Handler.Batch` talks to: `handler.db.Begin()`'s error
(if any), the per-command driver behaviour, and the error `tx.Commit()`
reports. -/
structure Db (A E R : Type) where
  beginErr : Option E
  out : Nat → List A → DbOut E R
  commitErr : Option E

/-- `Handler.Batch(commands)` (sqlbatch.go, first document): begin the
transaction (propagating a begin error), defer `tx.Rollback()`, run the
loop, then `tx.Commit()` and `return nil`.  The pair returned here is the
function's return value together with the final transaction-handle state
(`none` when `Begin` failed and no transaction exists).  Source line 101 is
`tx.Commit()` with the returned error discarded, mirrored by the unused
`.2` of `commit` below. -/
def Batch {A E R : Type} (hdb : Db A E R) (cmds : List (Command A E R)) :
    Option (BatchErr E) × Option TxState :=
  match hdb.beginErr with
  | some e => (some (BatchErr.err e), none)
  | none =>
    match runCmds hdb.out 0 cmds with
    | some e => (some e, some (txRollback TxState.openTx))
    | none =>
      let commit := (txCommit TxState.openTx, hdb.commitErr)
      (none, some (txRollback commit.1))

end Handler

/-! ### Concrete inputs used by the claim witnesses -/

/-- Concrete environment for the C3 witness: a read command over an empty,
fault-free cursor. -/
def db3 : Nat → List Nat → DbOut Nat Nat :=
  fun _ _ => ⟨ExecRes.ok 0, Except.ok ⟨[], none, none⟩⟩

/-- Concrete read command for the C3 witness. -/
def cmd3 : Command Nat Nat Nat Nat := ⟨"SELECT x", none, [], 0, none, none, 0⟩

/-- Concrete environment for the C5 witness: command 0's statement execution
fails with driver error 5. -/
def db5 : Nat → List Nat → DbOut Nat Nat :=
  fun _ _ => ⟨ExecRes.execErr 5, Except.ok ⟨[], none, none⟩⟩

/-- Concrete write-check command for the C5 witness. -/
def cmd5 : Command Nat Nat Nat Nat := ⟨"UPDATE t", none, [], 0, none, none, 1⟩

/-- Concrete environment for the C4 witness: the driver reports 3 affected
rows. -/
def db4 : Nat → List Nat → DbOut Nat Nat :=
  fun _ _ => ⟨ExecRes.ok 3, Except.ok ⟨[], none, none⟩⟩

/-- Concrete write-check command for the C4 witness: expects 2 affected
rows. -/
def cmd4 : Command Nat Nat Nat Nat := ⟨"UPDATE t", none, [], 0, none, none, 2⟩

/-- Concrete environment for the C10 witness: one row, decode callback
errors with 8. -/
def db10 : Nat → List Nat → DbOut Nat Nat :=
  fun _ _ => ⟨ExecRes.ok 0, Except.ok ⟨[4], none, none⟩⟩

/-- Concrete read command for the C10 witness: `ReadOne` always errors. -/
def cmd10 : Command Nat Nat Nat Nat :=
  ⟨"SELECT x", none, [], 0, none, some (fun _ => Except.error 8), 0⟩

/-- Concrete environment for the C8 witness. -/
def db8 : Nat → List Nat → DbOut Nat Nat :=
  fun _ _ => ⟨ExecRes.ok 0, Except.ok ⟨[], none, none⟩⟩

/-- Concrete read command for the C8 witness, with an `ArgsFunc` computing
its parameters from the snapshot (and an `Args` field it supersedes). -/
def cmd8 : Command Nat Nat Nat Nat :=
  ⟨"SELECT x", some (fun r => [r.length]), [99], 0, none, none, 0⟩

/-- Concrete environment for the C7 witness: an empty result set. -/
def db7 : Nat → List Nat → DbOut Nat Nat :=
  fun _ _ => ⟨ExecRes.ok 0, Except.ok ⟨[], none, none⟩⟩

/-- Concrete read command for the C7 witness, with **both** `ReadOne` and
`ReadAll` set. -/
def cmd7 : Command Nat Nat Nat Nat :=
  ⟨"SELECT x", none, [], 0, some (fun m _ => Except.ok m),
    some (fun r => Except.ok r), 0⟩

/-- Concrete environment for the C6 witness: three rows 1, 2, 3. -/
def db6 : Nat → List Nat → DbOut Nat Nat :=
  fun _ _ => ⟨ExecRes.ok 0, Except.ok ⟨[1, 2, 3], none, none⟩⟩

/-- Concrete read command for the C6 witness: `ReadAll` sums the rows from
`Init = 0`. -/
def cmd6 : Command Nat Nat Nat Nat :=
  ⟨"SELECT x", none, [], 0, some (fun m r => Except.ok (m + r)), none, 0⟩

/-! ### Helper lemmas about the embedded definitions -/

theorem exceptBindError {E α β : Type} (e : E) (g : α → Except E β) :
    ((Except.error e : Except E α) >>= g) = Except.error e := rfl

theorem exceptBindOk {E α β : Type} (a : α) (g : α → Except E β) :
    ((Except.ok a : Except E α) >>= g) = g a := rfl

theorem foldRows_fst {V A E R : Type} (f : V → R → Except E V) (i : Nat) :
    ∀ (rows : List R) (k : Nat) (memo : V),
      (foldRows (A := A) f i rows k memo).1 = List.foldlM f memo rows := by
  intro rows
  induction rows with
  | nil => intro k memo; rfl
  | cons r rs ih =>
    intro k memo
    simp only [foldRows, List.foldlM_cons]
    cases hf : f memo r with
    | error e => simp [exceptBindError]
    | ok m => simp [exceptBindOk, ih (k + 1) m]

theorem foldRows_evs_ok {V A E R : Type} (f : V → R → Except E V) (i : Nat) :
    ∀ (rows : List R) (k : Nat) (memo v : V),
      List.foldlM f memo rows = Except.ok v →
      (foldRows (A := A) f i rows k memo).2
        = (List.range' k rows.length).map (Ev.readAllCall i) := by
  intro rows
  induction rows with
  | nil => intro k memo v _; simp [foldRows]
  | cons r rs ih =>
    intro k memo v h
    simp only [List.foldlM_cons] at h
    simp only [foldRows]
    cases hf : f memo r with
    | error e => rw [hf, exceptBindError] at h; cases h
    | ok m =>
      rw [hf, exceptBindOk] at h
      simp only [hf]
      simp only [List.length_cons, List.range'_succ, List.map_cons]
      simp [ih (k + 1) m v h]

theorem foldRows_evs_shape {V A E R : Type} (f : V → R → Except E V) (i : Nat) :
    ∀ (rows : List R) (k : Nat) (memo : V),
      ∀ e ∈ (foldRows (A := A) f i rows k memo).2, ∃ k2, e = Ev.readAllCall i k2 := by
  intro rows
  induction rows with
  | nil => intro k memo e he; simp [foldRows] at he
  | cons r rs ih =>
    intro k memo e he
    simp only [foldRows] at he
    cases hf : f memo r with
    | error e2 =>
      simp [hf] at he
      exact ⟨k, he⟩
    | ok m =>
      simp only [hf, List.mem_cons] at he
      rcases he with h | h
      · exact ⟨k, h⟩
      · exact ih (k + 1) m e h

theorem afterRead_slot {V A E R : Type} (i : Nat) (q : QueryRes E R)
    (slot : Option V) (evs : List (Ev V A)) :
    (afterRead i q slot evs).slot = slot := by
  cases h1 : q.iterErr with
  | some e => simp [afterRead, h1]
  | none => cases h2 : q.closeErr with
    | some e => simp [afterRead, h1, h2]
    | none => simp [afterRead, h1, h2]

theorem afterRead_opened {V A E R : Type} (i : Nat) (q : QueryRes E R)
    (slot : Option V) (evs : List (Ev V A)) :
    (afterRead i q slot evs).opened = true := by
  cases h1 : q.iterErr with
  | some e => simp [afterRead, h1]
  | none => cases h2 : q.closeErr with
    | some e => simp [afterRead, h1, h2]
    | none => simp [afterRead, h1, h2]

theorem afterRead_evs {V A E R : Type} (i : Nat) (q : QueryRes E R)
    (slot : Option V) (evs : List (Ev V A)) :
    (afterRead i q slot evs).evs = evs ∨
      (afterRead i q slot evs).evs = evs ++ [Ev.closeCall i] := by
  cases h1 : q.iterErr with
  | some e => exact Or.inl (by simp [afterRead, h1])
  | none => cases h2 : q.closeErr with
    | some e => exact Or.inr (by simp [afterRead, h1, h2])
    | none => exact Or.inr (by simp [afterRead, h1, h2])

theorem afterRead_ok_evs {V A E R : Type} (i : Nat) (q : QueryRes E R)
    (slot : Option V) (evs : List (Ev V A))
    (h : (afterRead i q slot evs).err = none) :
    (afterRead i q slot evs).evs = evs ++ [Ev.closeCall i] := by
  cases h1 : q.iterErr with
  | some e => simp [afterRead, h1] at h
  | none => cases h2 : q.closeErr with
    | some e => simp [afterRead, h1, h2] at h
    | none => simp [afterRead, h1, h2]

theorem argsEvents_idx {V A E R : Type} (c : Command V A E R) (i : Nat)
    (results : List (Option V)) :
    ∀ e ∈ argsEvents c i results, e.cmdIdx = some i := by
  cases h : c.ArgsFunc <;> simp [argsEvents, h, Ev.cmdIdx]

theorem afterRead_forall {V A E R : Type} {P : Ev V A → Prop} (i : Nat)
    (q : QueryRes E R) (slot : Option V) (evs : List (Ev V A))
    (h : ∀ e ∈ evs, P e) (hc : P (Ev.closeCall i)) :
    ∀ e ∈ (afterRead i q slot evs).evs, P e := by
  rcases afterRead_evs i q slot evs with h2 | h2 <;> rw [h2]
  · exact h
  · intro e he
    rcases List.mem_append.mp he with h3 | h3
    · exact h e h3
    · rcases List.mem_singleton.mp h3 with rfl
      exact hc

theorem writeStep_evs {V A E : Type} (i : Nat) (affect : Int) (query : String)
    (args : List A) (evs0 : List (Ev V A)) (x : ExecRes E) :
    (writeStep (V := V) i affect query args evs0 x).evs
      = evs0 ++ [Ev.execCall i args] := by
  cases x with
  | execErr e => rfl
  | affectedErr e => rfl
  | ok a =>
    by_cases h : (if affect < 0 then 0 else affect) ≠ a <;> simp [writeStep, h]

theorem writeStep_slot {V A E : Type} (i : Nat) (affect : Int) (query : String)
    (args : List A) (evs0 : List (Ev V A)) (x : ExecRes E) :
    (writeStep (V := V) i affect query args evs0 x).slot = none := by
  cases x with
  | execErr e => rfl
  | affectedErr e => rfl
  | ok a =>
    by_cases h : (if affect < 0 then 0 else affect) ≠ a <;> simp [writeStep, h]

theorem writeStep_opened {V A E : Type} (i : Nat) (affect : Int) (query : String)
    (args : List A) (evs0 : List (Ev V A)) (x : ExecRes E) :
    (writeStep (V := V) i affect query args evs0 x).opened = false := by
  cases x with
  | execErr e => rfl
  | affectedErr e => rfl
  | ok a =>
    by_cases h : (if affect < 0 then 0 else affect) ≠ a <;> simp [writeStep, h]

theorem readStep_forall {V A E R : Type} {P : Ev V A → Prop} (i : Nat)
    (c : Command V A E R) (q : QueryRes E R) (base : List (Ev V A))
    (hb : ∀ e ∈ base, P e) (h1 : P (Ev.readOneCall i))
    (h2 : ∀ k, P (Ev.readAllCall i k)) (hc : P (Ev.closeCall i)) :
    ∀ e ∈ (readStep i c q base).evs, P e := by
  have hbase1 : ∀ e ∈ base ++ [Ev.readOneCall i], P e := by
    intro e he
    rcases List.mem_append.mp he with h | h
    · exact hb e h
    · rcases List.mem_singleton.mp h with rfl
      exact h1
  cases hro : c.ReadOne with
  | some g =>
    cases hrows : q.rows with
    | nil =>
      simp only [readStep, hro, hrows]
      exact afterRead_forall i q none base hb hc
    | cons r rs =>
      cases hg : g r with
      | error e =>
        simp only [readStep, hro, hrows, hg]
        exact hbase1
      | ok v =>
        simp only [readStep, hro, hrows, hg]
        exact afterRead_forall i q (some v) _ hbase1 hc
  | none =>
    cases hra : c.ReadAll with
    | some f =>
      have hfold : ∀ e ∈ base ++ (foldRows (A := A) f i q.rows 0 c.Init).2, P e := by
        intro e he
        rcases List.mem_append.mp he with h | h
        · exact hb e h
        · rcases foldRows_evs_shape f i q.rows 0 c.Init e h with ⟨k2, rfl⟩
          exact h2 k2
      cases hfr : (foldRows (A := A) f i q.rows 0 c.Init).1 with
      | error e =>
        simp only [readStep, hro, hra, hfr]
        exact hfold
      | ok memo =>
        simp only [readStep, hro, hra, hfr]
        exact afterRead_forall i q (some memo) _ hfold hc
    | none =>
      simp only [readStep, hro, hra]
      exact afterRead_forall i q none base hb hc

theorem stepCmd_evs_idx {V A E R : Type} (db : Nat → List A → DbOut E R) (i : Nat)
    (c : Command V A E R) (results : List (Option V)) :
    ∀ e ∈ (stepCmd db i c results).evs, e.cmdIdx = some i := by
  have hargs := argsEvents_idx c i results
  have hbase : ∀ e ∈ argsEvents c i results ++ [Ev.queryCall i (resolveArgs c results)],
      Ev.cmdIdx e = some i := by
    intro e he
    rcases List.mem_append.mp he with h | h
    · exact hargs e h
    · rcases List.mem_singleton.mp h with rfl
      rfl
  by_cases ha : c.Affect ≠ 0
  · simp only [stepCmd, if_pos ha, writeStep_evs]
    intro e he
    rcases List.mem_append.mp he with h | h
    · exact hargs e h
    · rcases List.mem_singleton.mp h with rfl
      rfl
  · cases hq : (db i (resolveArgs c results)).query with
    | error e =>
      simp only [stepCmd, if_neg ha, hq]
      exact hbase
    | ok q =>
      simp only [stepCmd, if_neg ha, hq]
      exact readStep_forall i c q _ hbase rfl (fun k => rfl) rfl

theorem runBatch_nil {V A E R : Type} (db : Nat → List A → DbOut E R) (i : Nat)
    (res : List (Option V)) (defs : List Nat) :
    runBatch db i res defs [] = ⟨res, none, [], defs⟩ := rfl

theorem runBatch_cons_err {V A E R : Type} (db : Nat → List A → DbOut E R)
    (i : Nat) (c : Command V A E R) (res : List (Option V)) (defs : List Nat)
    (rest : List (Command V A E R)) (e : BatchErr E)
    (h : (stepCmd db i c res).err = some e) :
    runBatch db i res defs (c :: rest) =
      ⟨res.set i (stepCmd db i c res).slot, some e, (stepCmd db i c res).evs,
        if (stepCmd db i c res).opened then i :: defs else defs⟩ := by
  simp only [runBatch, h]

theorem runBatch_cons_ok {V A E R : Type} (db : Nat → List A → DbOut E R)
    (i : Nat) (c : Command V A E R) (res : List (Option V)) (defs : List Nat)
    (rest : List (Command V A E R))
    (h : (stepCmd db i c res).err = none) :
    runBatch db i res defs (c :: rest) =
      ⟨(runBatch db (i + 1) (res.set i (stepCmd db i c res).slot)
          (if (stepCmd db i c res).opened then i :: defs else defs) rest).results,
       (runBatch db (i + 1) (res.set i (stepCmd db i c res).slot)
          (if (stepCmd db i c res).opened then i :: defs else defs) rest).err,
       (stepCmd db i c res).evs ++
         (runBatch db (i + 1) (res.set i (stepCmd db i c res).slot)
          (if (stepCmd db i c res).opened then i :: defs else defs) rest).evs,
       (runBatch db (i + 1) (res.set i (stepCmd db i c res).slot)
          (if (stepCmd db i c res).opened then i :: defs else defs) rest).deferred⟩ := by
  simp only [runBatch, h]

theorem runBatch_results_length {V A E R : Type} (db : Nat → List A → DbOut E R) :
    ∀ (cmds : List (Command V A E R)) (i : Nat) (res : List (Option V))
      (defs : List Nat),
      ((runBatch db i res defs cmds).results).length = res.length := by
  intro cmds
  induction cmds with
  | nil => intro i res defs; rfl
  | cons c rest ih =>
    intro i res defs
    cases hs : (stepCmd db i c res).err with
    | some e =>
      rw [runBatch_cons_err db i c res defs rest e hs]
      simp [List.length_set]
    | none =>
      rw [runBatch_cons_ok db i c res defs rest hs]
      simp [ih, List.length_set]

theorem runBatch_evs_idx {V A E R : Type} (db : Nat → List A → DbOut E R) :
    ∀ (cmds : List (Command V A E R)) (i : Nat) (res : List (Option V))
      (defs : List Nat),
      ∀ e ∈ (runBatch db i res defs cmds).evs,
        ∃ j, e.cmdIdx = some j ∧ i ≤ j ∧ j < i + cmds.length := by
  intro cmds
  induction cmds with
  | nil => intro i res defs e he; simp [runBatch_nil] at he
  | cons c rest ih =>
    intro i res defs e he
    cases hs : (stepCmd db i c res).err with
    | some e2 =>
      rw [runBatch_cons_err db i c res defs rest e2 hs] at he
      have := stepCmd_evs_idx db i c res e he
      exact ⟨i, this, Nat.le_refl i, by simp only [List.length_cons]; omega⟩
    | none =>
      rw [runBatch_cons_ok db i c res defs rest hs] at he
      rcases List.mem_append.mp he with h | h
      · have := stepCmd_evs_idx db i c res e h
        exact ⟨i, this, Nat.le_refl i, by simp only [List.length_cons]; omega⟩
      · rcases ih (i + 1) _ _ e h with ⟨j, hj1, hj2, hj3⟩
        exact ⟨j, hj1, by omega, by simp only [List.length_cons]; omega⟩

theorem runBatch_deferred_bound {V A E R : Type} (db : Nat → List A → DbOut E R) :
    ∀ (cmds : List (Command V A E R)) (i : Nat) (res : List (Option V))
      (defs : List Nat),
      ∀ x ∈ (runBatch db i res defs cmds).deferred,
        x ∈ defs ∨ (i ≤ x ∧ x < i + cmds.length) := by
  intro cmds
  induction cmds with
  | nil => intro i res defs x hx; exact Or.inl hx
  | cons c rest ih =>
    intro i res defs x hx
    have hsplit : ∀ y, (y ∈ (if (stepCmd db i c res).opened then i :: defs else defs)) →
        y ∈ defs ∨ (i ≤ y ∧ y < i + (c :: rest).length) := by
      intro y hy
      by_cases ho : (stepCmd db i c res).opened
      · rw [if_pos ho] at hy
        rcases List.mem_cons.mp hy with rfl | hy2
        · exact Or.inr ⟨Nat.le_refl y, by simp only [List.length_cons]; omega⟩
        · exact Or.inl hy2
      · rw [if_neg ho] at hy
        exact Or.inl hy
    cases hs : (stepCmd db i c res).err with
    | some e =>
      rw [runBatch_cons_err db i c res defs rest e hs] at hx
      exact hsplit x hx
    | none =>
      rw [runBatch_cons_ok db i c res defs rest hs] at hx
      rcases ih (i + 1) _ _ x hx with h | ⟨h1, h2⟩
      · rcases hsplit x h with h3 | ⟨h4, h5⟩
        · exact Or.inl h3
        · exact Or.inr ⟨h4, h5⟩
      · exact Or.inr ⟨by omega, by simp only [List.length_cons]; omega⟩

theorem runBatch_untouched {V A E R : Type} (db : Nat → List A → DbOut E R) :
    ∀ (cmds : List (Command V A E R)) (i : Nat) (res : List (Option V))
      (defs : List Nat) (j : Nat), (j < i ∨ i + cmds.length ≤ j) →
      ((runBatch db i res defs cmds).results)[j]? = res[j]? := by
  intro cmds
  induction cmds with
  | nil => intro i res defs j _; rfl
  | cons c rest ih =>
    intro i res defs j hj
    have hne : i ≠ j := by
      simp [List.length_cons] at hj
      omega
    cases hs : (stepCmd db i c res).err with
    | some e =>
      rw [runBatch_cons_err db i c res defs rest e hs]
      simpa using List.getElem?_set_ne hne
    | none =>
      rw [runBatch_cons_ok db i c res defs rest hs]
      have h2 : (j < i + 1 ∨ (i + 1) + rest.length ≤ j) := by
        simp [List.length_cons] at hj
        omega
      have h3 := ih (i + 1) (res.set i (stepCmd db i c res).slot)
        (if (stepCmd db i c res).opened then i :: defs else defs) j h2
      simpa [h3] using List.getElem?_set_ne hne

theorem runBatch_append {V A E R : Type} (db : Nat → List A → DbOut E R) :
    ∀ (xs ys : List (Command V A E R)) (i : Nat) (res res₁ : List (Option V))
      (defs defs₁ : List Nat) (evs₁ : List (Ev V A)),
      runBatch db i res defs xs = ⟨res₁, none, evs₁, defs₁⟩ →
      runBatch db i res defs (xs ++ ys) =
        ⟨(runBatch db (i + xs.length) res₁ defs₁ ys).results,
         (runBatch db (i + xs.length) res₁ defs₁ ys).err,
         evs₁ ++ (runBatch db (i + xs.length) res₁ defs₁ ys).evs,
         (runBatch db (i + xs.length) res₁ defs₁ ys).deferred⟩ := by
  intro xs
  induction xs with
  | nil =>
    intro ys i res res₁ defs defs₁ evs₁ h
    rw [runBatch_nil] at h
    simp only [RunOut.mk.injEq] at h
    obtain ⟨h1, _, h3, h4⟩ := h
    subst h1; subst h3; subst h4
    simp only [List.nil_append, List.length_nil, Nat.add_zero]
  | cons c rest ih =>
    intro ys i res res₁ defs defs₁ evs₁ h
    cases hs : (stepCmd db i c res).err with
    | some e =>
      rw [runBatch_cons_err db i c res defs rest e hs] at h
      simp only [RunOut.mk.injEq] at h
      exact absurd h.2.1 (by simp)
    | none =>
      rcases ht : runBatch db (i + 1) (res.set i (stepCmd db i c res).slot)
          (if (stepCmd db i c res).opened then i :: defs else defs) rest
        with ⟨tr, te, tv, td⟩
      rw [runBatch_cons_ok db i c res defs rest hs, ht] at h
      simp only [RunOut.mk.injEq] at h
      obtain ⟨h1, h2, h3, h4⟩ := h
      subst h1; subst h3; subst h4
      have hte : te = none := h2
      subst hte
      rw [List.cons_append,
        runBatch_cons_ok db i c res defs (rest ++ ys) hs,
        ih ys (i + 1) _ tr _ td tv ht]
      have hlen : i + 1 + rest.length = i + (c :: rest).length := by
        simp only [List.length_cons]
        omega
      rw [hlen]
      simp [List.append_assoc]

theorem Batch_split {V A E R : Type} (db : Nat → List A → DbOut E R)
    (xs ys : List (Command V A E R)) (c : Command V A E R)
    (res₁ : List (Option V)) (defs₁ : List Nat) (evs₁ : List (Ev V A))
    (h : runBatch db 0 (List.replicate (xs ++ c :: ys).length none) [] xs
      = ⟨res₁, none, evs₁, defs₁⟩) :
    Batch db (xs ++ c :: ys) =
      ⟨(runBatch db xs.length res₁ defs₁ (c :: ys)).results,
       (runBatch db xs.length res₁ defs₁ (c :: ys)).err,
       evs₁ ++ ((runBatch db xs.length res₁ defs₁ (c :: ys)).evs
         ++ ((runBatch db xs.length res₁ defs₁ (c :: ys)).deferred).map Ev.closeCall)⟩ := by
  simp only [Batch]
  rw [runBatch_append db xs (c :: ys) 0 _ res₁ _ defs₁ evs₁ h]
  simp [List.append_assoc]

theorem runBatch_prefix_unset {V A E R : Type} (db : Nat → List A → DbOut E R)
    (xs : List (Command V A E R)) (n : Nat) (res₁ : List (Option V))
    (defs₁ : List Nat) (evs₁ : List (Ev V A))
    (h : runBatch db 0 (List.replicate n (none : Option V)) [] xs
      = ⟨res₁, none, evs₁, defs₁⟩) :
    ∀ j, xs.length ≤ j → j < n → res₁[j]? = some none := by
  intro j hj hjn
  have h2 := runBatch_untouched db xs 0 (List.replicate n (none : Option V)) [] j
    (Or.inr (by omega))
  rw [h] at h2
  simp only at h2
  rw [h2, List.getElem?_replicate_of_lt hjn]

theorem runBatch_prefix_length {V A E R : Type} (db : Nat → List A → DbOut E R)
    (xs : List (Command V A E R)) (n : Nat) (res₁ : List (Option V))
    (defs₁ : List Nat) (evs₁ : List (Ev V A))
    (h : runBatch db 0 (List.replicate n (none : Option V)) [] xs
      = ⟨res₁, none, evs₁, defs₁⟩) :
    res₁.length = n := by
  have h2 := runBatch_results_length db xs 0 (List.replicate n (none : Option V)) []
  rw [h] at h2
  simpa using h2

theorem stepCmd_write {V A E R : Type} (db : Nat → List A → DbOut E R) (i : Nat)
    (c : Command V A E R) (results : List (Option V)) (ha : c.Affect ≠ 0) :
    stepCmd db i c results =
      writeStep i c.Affect c.Query (resolveArgs c results)
        (argsEvents c i results) ((db i (resolveArgs c results)).exec) := by
  simp [stepCmd, ha]

theorem stepCmd_read {V A E R : Type} (db : Nat → List A → DbOut E R) (i : Nat)
    (c : Command V A E R) (results : List (Option V)) (q : QueryRes E R)
    (ha : c.Affect = 0)
    (hq : (db i (resolveArgs c results)).query = Except.ok q) :
    stepCmd db i c results =
      readStep i c q (argsEvents c i results
        ++ [Ev.queryCall i (resolveArgs c results)]) := by
  simp [stepCmd, ha, hq]

theorem expected_eq_max (a : Int) : (if a < 0 then 0 else a) = max a 0 := by
  by_cases h : a < 0
  · simp [h]
    omega
  · simp [h]
    omega

theorem writeStep_ok_err {V A E : Type} (i : Nat) (affect : Int) (query : String)
    (args : List A) (evs0 : List (Ev V A)) (a : Int) :
    (writeStep (V := V) i affect query args evs0 (ExecRes.ok (E := E) a)).err =
      if max affect 0 ≠ a then
        some (BatchErr.rowCountMismatch (max affect 0) a query)
      else none := by
  by_cases h : (if affect < 0 then 0 else affect) ≠ a
  · simp only [writeStep, if_pos h]
    rw [expected_eq_max] at h
    simp [h, expected_eq_max affect]
  · simp only [writeStep, if_neg h]
    rw [expected_eq_max] at h
    simp [h]

theorem isReadAllEv_true_iff {V A : Type} (i : Nat) (e : Ev V A) :
    isReadAllEv i e = true ↔ ∃ k, e = Ev.readAllCall i k := by
  cases e <;> simp [isReadAllEv]

theorem isReadOneEv_true_iff {V A : Type} (i : Nat) (e : Ev V A) :
    isReadOneEv i e = true ↔ e = Ev.readOneCall i := by
  cases e <;> simp [isReadOneEv]

theorem readStep_opened {V A E R : Type} (i : Nat) (c : Command V A E R)
    (q : QueryRes E R) (base : List (Ev V A)) :
    (readStep i c q base).opened = true := by
  cases hro : c.ReadOne with
  | some g =>
    cases hrows : q.rows with
    | nil => simp only [readStep, hro, hrows]; exact afterRead_opened ..
    | cons r rs =>
      cases hg : g r with
      | error e => simp [readStep, hro, hrows, hg]
      | ok v => simp only [readStep, hro, hrows, hg]; exact afterRead_opened ..
  | none =>
    cases hra : c.ReadAll with
    | some f =>
      cases hfr : (foldRows (A := A) f i q.rows 0 c.Init).1 with
      | error e => simp [readStep, hro, hra, hfr]
      | ok memo => simp only [readStep, hro, hra, hfr]; exact afterRead_opened ..
    | none => simp only [readStep, hro, hra]; exact afterRead_opened ..

theorem readStep_ok_close {V A E R : Type} (i : Nat) (c : Command V A E R)
    (q : QueryRes E R) (base : List (Ev V A))
    (h : (readStep i c q base).err = none) :
    Ev.closeCall i ∈ (readStep i c q base).evs := by
  have hmem : ∀ (slot : Option V) (evs : List (Ev V A)),
      (afterRead i q slot evs).err = none →
      Ev.closeCall i ∈ (afterRead i q slot evs).evs := by
    intro slot evs h2
    rw [afterRead_ok_evs i q slot evs h2]
    simp
  cases hro : c.ReadOne with
  | some g =>
    cases hrows : q.rows with
    | nil =>
      simp only [readStep, hro, hrows] at h ⊢
      exact hmem none _ h
    | cons r rs =>
      cases hg : g r with
      | error e => simp [readStep, hro, hrows, hg] at h
      | ok v =>
        simp only [readStep, hro, hrows, hg] at h ⊢
        exact hmem (some v) _ h
  | none =>
    cases hra : c.ReadAll with
    | some f =>
      cases hfr : (foldRows (A := A) f i q.rows 0 c.Init).1 with
      | error e => simp [readStep, hro, hra, hfr] at h
      | ok memo =>
        simp only [readStep, hro, hra, hfr] at h ⊢
        exact hmem (some memo) _ h
    | none =>
      simp only [readStep, hro, hra] at h ⊢
      exact hmem none _ h

theorem readStep_evs_prefix {V A E R : Type} (i : Nat) (c : Command V A E R)
    (q : QueryRes E R) (base : List (Ev V A)) :
    ∃ t, (readStep i c q base).evs = base ++ t := by
  have hafter : ∀ (slot : Option V) (t0 : List (Ev V A)),
      ∃ t, (afterRead i q slot (base ++ t0)).evs = base ++ t := by
    intro slot t0
    rcases afterRead_evs i q slot (base ++ t0) with h | h
    · exact ⟨t0, h⟩
    · exact ⟨t0 ++ [Ev.closeCall i], by rw [h, List.append_assoc]⟩
  have hafter0 : ∀ (slot : Option V),
      ∃ t, (afterRead i q slot base).evs = base ++ t := by
    intro slot
    have := hafter slot []
    simpa using this
  cases hro : c.ReadOne with
  | some g =>
    cases hrows : q.rows with
    | nil => simp only [readStep, hro, hrows]; exact hafter0 none
    | cons r rs =>
      cases hg : g r with
      | error e =>
        refine ⟨[Ev.readOneCall i], ?_⟩
        simp [readStep, hro, hrows, hg]
      | ok v => simp only [readStep, hro, hrows, hg]; exact hafter (some v) _
  | none =>
    cases hra : c.ReadAll with
    | some f =>
      cases hfr : (foldRows (A := A) f i q.rows 0 c.Init).1 with
      | error e =>
        refine ⟨(foldRows (A := A) f i q.rows 0 c.Init).2, ?_⟩
        simp [readStep, hro, hra, hfr]
      | ok memo => simp only [readStep, hro, hra, hfr]; exact hafter (some memo) _
    | none => simp only [readStep, hro, hra]; exact hafter0 none

theorem stepCmd_evs_prefix {V A E R : Type} (db : Nat → List A → DbOut E R)
    (i : Nat) (c : Command V A E R) (results : List (Option V)) :
    ∃ t, (stepCmd db i c results).evs = argsEvents c i results ++ t := by
  by_cases ha : c.Affect ≠ 0
  · rw [stepCmd_write db i c results ha, writeStep_evs]
    exact ⟨[Ev.execCall i (resolveArgs c results)], rfl⟩
  · cases hq : (db i (resolveArgs c results)).query with
    | error e =>
      refine ⟨[Ev.queryCall i (resolveArgs c results)], ?_⟩
      simp [stepCmd, ha, hq]
    | ok q =>
      rw [stepCmd_read db i c results q (by omega) hq]
      rcases readStep_evs_prefix i c q
          (argsEvents c i results ++ [Ev.queryCall i (resolveArgs c results)])
        with ⟨t, ht⟩
      exact ⟨[Ev.queryCall i (resolveArgs c results)] ++ t,
        by rw [ht, List.append_assoc]⟩

theorem afterRead_countP {V A E R : Type} (i : Nat) (q : QueryRes E R)
    (slot : Option V) (evs : List (Ev V A)) (p : Ev V A → Bool)
    (hp : p (Ev.closeCall i) = false) :
    ((afterRead i q slot evs).evs).countP p = evs.countP p := by
  rcases afterRead_evs i q slot evs with h | h
  · rw [h]
  · rw [h, List.countP_append]
    simp [List.countP_cons, hp]

theorem foldRows_countP {V A E R : Type} (f : V → R → Except E V) (i : Nat)
    (rows : List R) (k : Nat) (memo : V) (p : Ev V A → Bool)
    (hp : ∀ k2, p (Ev.readAllCall i k2) = false) :
    ((foldRows (A := A) f i rows k memo).2).countP p = 0 := by
  rw [List.countP_eq_zero]
  intro e he
  rcases foldRows_evs_shape f i rows k memo e he with ⟨k2, rfl⟩
  simp [hp k2]

theorem argsEvents_countP {V A E R : Type} (c : Command V A E R) (i : Nat)
    (results : List (Option V)) (p : Ev V A → Bool)
    (hp : p (Ev.argsCall i results) = false) :
    (argsEvents c i results).countP p = 0 := by
  cases h : c.ArgsFunc <;> simp [argsEvents, h, List.countP_cons, hp]

theorem stepCmd_countP_readOne {V A E R : Type} (db : Nat → List A → DbOut E R)
    (i : Nat) (c : Command V A E R) (results : List (Option V)) :
    ((stepCmd db i c results).evs).countP (isReadOneEv i) ≤ 1 := by
  have hargs0 := argsEvents_countP c i results (isReadOneEv i) rfl
  have hq1 : List.countP (isReadOneEv (V := V) i)
      [Ev.queryCall (V := V) i (resolveArgs c results)] = 0 := by
    simp [List.countP_cons, isReadOneEv]
  have he1 : List.countP (isReadOneEv (V := V) i)
      [Ev.execCall (V := V) i (resolveArgs c results)] = 0 := by
    simp [List.countP_cons, isReadOneEv]
  have hr1 : List.countP (isReadOneEv i) [Ev.readOneCall (V := V) (A := A) i] = 1 := by
    simp [List.countP_cons, isReadOneEv]
  by_cases ha : c.Affect ≠ 0
  · rw [stepCmd_write db i c results ha, writeStep_evs, List.countP_append,
      hargs0, he1]
    omega
  · cases hq : (db i (resolveArgs c results)).query with
    | error e =>
      have : stepCmd db i c results = ⟨none, some (BatchErr.err e),
          argsEvents c i results ++ [Ev.queryCall i (resolveArgs c results)],
          false⟩ := by
        simp [stepCmd, ha, hq]
      rw [this]
      simp only [List.countP_append]
      rw [hargs0, hq1]
      omega
    | ok q =>
      rw [stepCmd_read db i c results q (by omega) hq]
      have hbase0 : (argsEvents c i results
          ++ [Ev.queryCall i (resolveArgs c results)]).countP (isReadOneEv i) = 0 := by
        rw [List.countP_append, hargs0, hq1]
      cases hro : c.ReadOne with
      | some g =>
        cases hrows : q.rows with
        | nil =>
          simp only [readStep, hro, hrows]
          rw [afterRead_countP i q none _ (isReadOneEv i) rfl, hbase0]
          omega
        | cons r rs =>
          cases hg : g r with
          | error e =>
            simp only [readStep, hro, hrows, hg]
            rw [List.countP_append, hbase0, hr1]
          | ok v =>
            simp only [readStep, hro, hrows, hg]
            rw [afterRead_countP i q (some v) _ (isReadOneEv i) rfl,
              List.countP_append, hbase0, hr1]
      | none =>
        cases hra : c.ReadAll with
        | some f =>
          have hfold0 := foldRows_countP f i q.rows 0 c.Init
            (isReadOneEv (A := A) i) (fun k2 => rfl)
          cases hfr : (foldRows (A := A) f i q.rows 0 c.Init).1 with
          | error e =>
            simp only [readStep, hro, hra, hfr]
            rw [List.countP_append, hbase0, hfold0]
            omega
          | ok memo =>
            simp only [readStep, hro, hra, hfr]
            rw [afterRead_countP i q (some memo) _ (isReadOneEv i) rfl,
              List.countP_append, hbase0, hfold0]
            omega
        | none =>
          simp only [readStep, hro, hra]
          rw [afterRead_countP i q none _ (isReadOneEv i) rfl, hbase0]
          omega

theorem stepCmd_countP_readAll_of_readOne {V A E R : Type}
    (db : Nat → List A → DbOut E R) (i : Nat) (c : Command V A E R)
    (results : List (Option V)) (g : R → Except E V) (hro : c.ReadOne = some g) :
    ((stepCmd db i c results).evs).countP (isReadAllEv i) = 0 := by
  have hargs0 := argsEvents_countP c i results (isReadAllEv i) rfl
  have hq1 : List.countP (isReadAllEv (V := V) i)
      [Ev.queryCall (V := V) i (resolveArgs c results)] = 0 := by
    simp [List.countP_cons, isReadAllEv]
  have he1 : List.countP (isReadAllEv (V := V) i)
      [Ev.execCall (V := V) i (resolveArgs c results)] = 0 := by
    simp [List.countP_cons, isReadAllEv]
  have hr1 : List.countP (isReadAllEv i) [Ev.readOneCall (V := V) (A := A) i] = 0 := by
    simp [List.countP_cons, isReadAllEv]
  by_cases ha : c.Affect ≠ 0
  · rw [stepCmd_write db i c results ha, writeStep_evs, List.countP_append,
      hargs0, he1]
  · cases hq : (db i (resolveArgs c results)).query with
    | error e =>
      have : stepCmd db i c results = ⟨none, some (BatchErr.err e),
          argsEvents c i results ++ [Ev.queryCall i (resolveArgs c results)],
          false⟩ := by
        simp [stepCmd, ha, hq]
      rw [this]
      simp only [List.countP_append]
      rw [hargs0, hq1]
    | ok q =>
      rw [stepCmd_read db i c results q (by omega) hq]
      have hbase0 : (argsEvents c i results
          ++ [Ev.queryCall i (resolveArgs c results)]).countP (isReadAllEv i) = 0 := by
        rw [List.countP_append, hargs0, hq1]
      cases hrows : q.rows with
      | nil =>
        simp only [readStep, hro, hrows]
        rw [afterRead_countP i q none _ (isReadAllEv i) rfl, hbase0]
      | cons r rs =>
        cases hg : g r with
        | error e =>
          simp only [readStep, hro, hrows, hg]
          rw [List.countP_append, hbase0, hr1]
        | ok v =>
          simp only [readStep, hro, hrows, hg]
          rw [afterRead_countP i q (some v) _ (isReadAllEv i) rfl,
            List.countP_append, hbase0, hr1]

theorem part001_afterRead_evs {V A E R : Type} (i : Nat) (q : QueryRes E R)
    (slot : Option V) (evs : List (Ev V A)) :
    (Part001.afterRead i q slot evs).evs = evs ++ [Ev.closeCall i] := by
  cases h1 : q.iterErr with
  | some e => simp [Part001.afterRead, h1]
  | none => cases h2 : q.closeErr with
    | some e => simp [Part001.afterRead, h1, h2]
    | none => simp [Part001.afterRead, h1, h2]

theorem part001_readStep_forall {V A E R : Type} {P : Ev V A → Prop} (i : Nat)
    (c : Part001.Command V A E R) (q : QueryRes E R) (base : List (Ev V A))
    (hb : ∀ e ∈ base, P e) (h1 : P (Ev.readOneCall i))
    (h2 : ∀ k, P (Ev.readAllCall i k)) (hc : P (Ev.closeCall i)) :
    ∀ e ∈ (Part001.readStep i c q base).evs, P e := by
  have hext : ∀ (l : List (Ev V A)), (∀ e ∈ l, P e) →
      ∀ e ∈ l ++ [Ev.closeCall i], P e := by
    intro l hl e he
    rcases List.mem_append.mp he with h | h
    · exact hl e h
    · rcases List.mem_singleton.mp h with rfl
      exact hc
  have hbase1 : ∀ e ∈ base ++ [Ev.readOneCall i], P e := by
    intro e he
    rcases List.mem_append.mp he with h | h
    · exact hb e h
    · rcases List.mem_singleton.mp h with rfl
      exact h1
  cases hro : c.ScanOnce with
  | some g =>
    cases hrows : q.rows with
    | nil =>
      simp only [Part001.readStep, hro, hrows, part001_afterRead_evs]
      exact hext base hb
    | cons r rs =>
      cases hg : g r with
      | error e =>
        simp only [Part001.readStep, hro, hrows, hg]
        exact hbase1
      | ok v =>
        simp only [Part001.readStep, hro, hrows, hg, part001_afterRead_evs]
        exact hext _ hbase1
  | none =>
    cases hra : c.Scan with
    | some f =>
      have hfold : ∀ e ∈ base ++ (foldRows (A := A) f i q.rows 0 c.Memo).2, P e := by
        intro e he
        rcases List.mem_append.mp he with h | h
        · exact hb e h
        · rcases foldRows_evs_shape f i q.rows 0 c.Memo e h with ⟨k2, rfl⟩
          exact h2 k2
      cases hfr : (foldRows (A := A) f i q.rows 0 c.Memo).1 with
      | error e =>
        simp only [Part001.readStep, hro, hra, hfr]
        exact hfold
      | ok memo =>
        simp only [Part001.readStep, hro, hra, hfr, part001_afterRead_evs]
        exact hext _ hfold
    | none =>
      simp only [Part001.readStep, hro, hra, part001_afterRead_evs]
      exact hext base hb

theorem part001_argsEvents_idx {V A E R : Type} (c : Part001.Command V A E R)
    (i : Nat) (results : List (Option V)) :
    ∀ e ∈ Part001.argsEvents c i results, e.cmdIdx = some i := by
  cases h : c.ArgsFunc <;> simp [Part001.argsEvents, h, Ev.cmdIdx]

theorem part001_stepCmd_evs_idx {V A E R : Type} (db : Nat → List A → DbOut E R)
    (i : Nat) (c : Part001.Command V A E R) (results : List (Option V)) :
    ∀ e ∈ (Part001.stepCmd db i c results).evs, e.cmdIdx = some i := by
  have hargs := part001_argsEvents_idx c i results
  have hbase : ∀ e ∈ Part001.argsEvents c i results
      ++ [Ev.queryCall i (Part001.resolveArgs c results)], Ev.cmdIdx e = some i := by
    intro e he
    rcases List.mem_append.mp he with h | h
    · exact hargs e h
    · rcases List.mem_singleton.mp h with rfl
      rfl
  by_cases ha : c.Affect ≠ 0
  · simp only [Part001.stepCmd, if_pos ha, writeStep_evs]
    intro e he
    rcases List.mem_append.mp he with h | h
    · exact hargs e h
    · rcases List.mem_singleton.mp h with rfl
      rfl
  · cases hq : (db i (Part001.resolveArgs c results)).query with
    | error e =>
      simp only [Part001.stepCmd, if_neg ha, hq]
      exact hbase
    | ok q =>
      simp only [Part001.stepCmd, if_neg ha, hq]
      exact part001_readStep_forall i c q _ hbase rfl (fun k => rfl) rfl

theorem part001_runBatch_evs_idx {V A E R : Type} (db : Nat → List A → DbOut E R) :
    ∀ (cmds : List (Part001.Command V A E R)) (i : Nat) (res : List (Option V)),
      ∀ e ∈ (Part001.runBatch db i res cmds).trace, ∃ j, e.cmdIdx = some j := by
  intro cmds
  induction cmds with
  | nil => intro i res e he; simp [Part001.runBatch] at he
  | cons c rest ih =>
    intro i res e he
    cases hs : (Part001.stepCmd db i c res).err with
    | some e2 =>
      have : (Part001.runBatch db i res (c :: rest)).trace
          = (Part001.stepCmd db i c res).evs := by
        simp only [Part001.runBatch, hs]
      rw [this] at he
      exact ⟨i, part001_stepCmd_evs_idx db i c res e he⟩
    | none =>
      have : (Part001.runBatch db i res (c :: rest)).trace
          = (Part001.stepCmd db i c res).evs
            ++ (Part001.runBatch db (i + 1)
                (res.set i (Part001.stepCmd db i c res).slot) rest).trace := by
        simp only [Part001.runBatch, hs]
      rw [this] at he
      rcases List.mem_append.mp he with h | h
      · exact ⟨i, part001_stepCmd_evs_idx db i c res e h⟩
      · exact ih (i + 1) _ e h

theorem part001_Batch_no_finalize {V A E R : Type}
    (db : Nat → List A → DbOut E R) (cmds : List (Part001.Command V A E R)) :
    ((Part001.Batch db cmds).trace).countP isFinalizeEv = 0 := by
  rw [List.countP_eq_zero]
  intro e he
  rcases part001_runBatch_evs_idx db cmds 0 _ e he with ⟨j, hj⟩
  cases e <;> simp [isFinalizeEv] <;> simp [Ev.cmdIdx] at hj

theorem Batch_trace_of_step {V A E R : Type} (db : Nat → List A → DbOut E R)
    (xs ys : List (Command V A E R)) (c : Command V A E R)
    (res₁ : List (Option V)) (defs₁ : List Nat) (evs₁ : List (Ev V A))
    (hpre : runBatch db 0 (List.replicate (xs ++ c :: ys).length none) [] xs
      = ⟨res₁, none, evs₁, defs₁⟩) :
    ∀ x ∈ (stepCmd db xs.length c res₁).evs, x ∈ (Batch db (xs ++ c :: ys)).trace := by
  intro x hx
  rw [Batch_split db xs ys c res₁ defs₁ evs₁ hpre]
  show x ∈ evs₁ ++ ((runBatch db xs.length res₁ defs₁ (c :: ys)).evs
    ++ ((runBatch db xs.length res₁ defs₁ (c :: ys)).deferred).map Ev.closeCall)
  apply List.mem_append.mpr
  right
  apply List.mem_append.mpr
  left
  cases hs : (stepCmd db xs.length c res₁).err with
  | some e =>
    rw [runBatch_cons_err db xs.length c res₁ defs₁ ys e hs]
    exact hx
  | none =>
    rw [runBatch_cons_ok db xs.length c res₁ defs₁ ys hs]
    exact List.mem_append.mpr (Or.inl hx)

/-! ### Claims -/

/-- Claim C9: on every return of the results-returning `Batch` — success or
any error, including one raised at the very first command — the returned
results sequence has length equal to the number of input commands (slots are
`Option` values, `none` embedding Go's nil/unset slot). -/
theorem c9_results_length {V A E R : Type} (db : Nat → List A → DbOut E R)
    (cmds : List (Command V A E R)) :
    (Batch db cmds).results.length = cmds.length := by
  have h := runBatch_results_length db cmds 0
    (List.replicate cmds.length (none : Option V)) []
  simp only [Batch]
  simpa using h

/-- Claim C1 (code evaluated at the failing input): `Handler.Batch`, on a
batch whose only command succeeds and whose transaction's `Commit` reports
error 7, returns `nil` with the transaction committed — source line 101
(`tx.Commit()`) discards the commit error instead of returning it as the
README promises; and the results-returning `Batch` performs no commit at all
(its trace never contains a finalization event). -/
theorem c1_commit_error_dropped :
    (Handler.Batch (A := Nat) (E := Nat) (R := Nat)
        ⟨none, fun _ _ => ⟨ExecRes.ok 1, Except.error 0⟩, some 7⟩
        [⟨"UPDATE t", none, [], none, none, 1⟩]
      = (none, some Handler.TxState.committed))
    ∧ ((Batch (V := Nat) (A := Nat) (E := Nat) (R := Nat)
        (fun _ _ => ⟨ExecRes.ok 0, Except.ok ⟨[], none, none⟩⟩)
        [⟨"SELECT x", none, [], 0, none, none, 0⟩]).trace).countP isFinalizeEv
      = 0 := by
  exact ⟨by decide, by decide⟩

/-- Claim C2 (counterexample): a concrete call of the part_001
results-returning `Batch` — one read command, which succeeds — performs
neither commit nor rollback before returning, refuting "exactly one of
commit or rollback is performed on the transaction before the call
returns". -/
theorem c2_counterexample :
    ¬ (((Part001.Batch (V := Nat) (A := Nat) (E := Nat) (R := Nat)
        (fun _ _ => ⟨ExecRes.ok 0, Except.ok ⟨[5], none, none⟩⟩)
        [⟨"SELECT x", none, [], 0, none, none, 0⟩]).trace).countP isFinalizeEv
      = 1) := by
  decide

/-- Claim C2 (amended): `Handler.Batch` finalizes its transaction on every
call on which `Begin` succeeds — the handle ends committed or rolled back,
never open (the deferred rollback fires on every path and is a no-op after a
commit); the results-returning part_001 `Batch` operates on a caller-owned
transaction and itself performs neither commit nor rollback. -/
theorem c2_tx_finalized {A E R V2 A2 E2 R2 : Type} (hdb : Handler.Db A E R)
    (cmds : List (Handler.Command A E R)) (db2 : Nat → List A2 → DbOut E2 R2)
    (cmds2 : List (Part001.Command V2 A2 E2 R2))
    (hbegin : hdb.beginErr = none) :
    (∃ s, (Handler.Batch hdb cmds).2 = some s ∧ s ≠ Handler.TxState.openTx)
    ∧ ((Part001.Batch db2 cmds2).trace).countP isFinalizeEv = 0 := by
  constructor
  · cases hr : Handler.runCmds hdb.out 0 cmds with
    | some e =>
      refine ⟨Handler.TxState.rolledBack, ?_, by decide⟩
      simp [Handler.Batch, hbegin, hr, Handler.txRollback]
    | none =>
      refine ⟨Handler.TxState.committed, ?_, by decide⟩
      simp [Handler.Batch, hbegin, hr, Handler.txRollback, Handler.txCommit]
  · exact part001_Batch_no_finalize db2 cmds2

/-- Witness for the amended claim C2 at a concrete input. -/
theorem c2_tx_finalized_witness :
    ((⟨none, fun _ _ => ⟨ExecRes.ok 0, Except.error 0⟩, some 7⟩ :
        Handler.Db Nat Nat Nat).beginErr = none)
    ∧ ((∃ s, (Handler.Batch
          (⟨none, fun _ _ => ⟨ExecRes.ok 0, Except.error 0⟩, some 7⟩ :
            Handler.Db Nat Nat Nat)
          ([] : List (Handler.Command Nat Nat Nat))).2 = some s
        ∧ s ≠ Handler.TxState.openTx)
      ∧ ((Part001.Batch (V := Nat) (A := Nat) (E := Nat) (R := Nat)
          (fun _ _ => ⟨ExecRes.ok 0, Except.ok ⟨[], none, none⟩⟩)
          []).trace).countP isFinalizeEv = 0) :=
  ⟨rfl, c2_tx_finalized _ _ _ _ rfl⟩

/-- Claim C3 (counterexample): in part_001's `Batch`, a `Scan` decode error
on the first row aborts the batch without releasing the cursor: command 0's
cursor is opened (its `queryCall` is in the trace) but no `closeCall 0` ever
occurs. -/
theorem c3_counterexample :
    (Ev.queryCall 0 [] ∈ (Part001.Batch (V := Nat) (A := Nat) (E := Nat) (R := Nat)
        (fun _ _ => ⟨ExecRes.ok 0, Except.ok ⟨[5], none, none⟩⟩)
        [⟨"SELECT x", none, [], 0, some (fun _ _ => Except.error 9), none, 0⟩]).trace)
    ∧ (Ev.closeCall 0 ∉ (Part001.Batch (V := Nat) (A := Nat) (E := Nat) (R := Nat)
        (fun _ _ => ⟨ExecRes.ok 0, Except.ok ⟨[5], none, none⟩⟩)
        [⟨"SELECT x", none, [], 0, some (fun _ _ => Except.error 9), none, 0⟩]).trace) := by
  decide

/-- Claim C3 (amended, for the current sqlbatch.go results-returning
`Batch`, which defers `rows.Close()` at cursor open): for every read command
whose cursor opens, a close of that cursor occurs in the trace on every
outcome — explicitly on success, through the deferred close on error exits —
and when the command's processing succeeds, the close occurs before any
event of a later command. -/
theorem c3_cursor_released {V A E R : Type} (db : Nat → List A → DbOut E R)
    (xs ys : List (Command V A E R)) (c : Command V A E R)
    (res₁ : List (Option V)) (defs₁ : List Nat) (evs₁ : List (Ev V A))
    (q : QueryRes E R)
    (hpre : runBatch db 0 (List.replicate (xs ++ c :: ys).length none) [] xs
      = ⟨res₁, none, evs₁, defs₁⟩)
    (ha : c.Affect = 0)
    (hq : (db xs.length (resolveArgs c res₁)).query = Except.ok q) :
    Ev.closeCall xs.length ∈ (Batch db (xs ++ c :: ys)).trace
    ∧ ((stepCmd db xs.length c res₁).err = none →
        ∃ pre post, (Batch db (xs ++ c :: ys)).trace = pre ++ post
          ∧ Ev.closeCall xs.length ∈ pre
          ∧ ∀ ev ∈ pre, ∀ j, ev.cmdIdx = some j → j ≤ xs.length) := by
  have hstep := stepCmd_read db xs.length c res₁ q ha hq
  have hopen : (stepCmd db xs.length c res₁).opened = true := by
    rw [hstep]
    exact readStep_opened ..
  constructor
  · cases hs : (stepCmd db xs.length c res₁).err with
    | some e =>
      rw [Batch_split db xs ys c res₁ defs₁ evs₁ hpre,
        runBatch_cons_err db xs.length c res₁ defs₁ ys e hs]
      show Ev.closeCall xs.length ∈ evs₁ ++ ((stepCmd db xs.length c res₁).evs
        ++ (if (stepCmd db xs.length c res₁).opened then xs.length :: defs₁
            else defs₁).map Ev.closeCall)
      rw [hopen]
      simp
    | none =>
      have hclose : Ev.closeCall xs.length ∈ (stepCmd db xs.length c res₁).evs := by
        rw [hstep]
        apply readStep_ok_close
        rw [← hstep]
        exact hs
      exact Batch_trace_of_step db xs ys c res₁ defs₁ evs₁ hpre _ hclose
  · intro hs
    have hclose : Ev.closeCall xs.length ∈ (stepCmd db xs.length c res₁).evs := by
      rw [hstep]
      apply readStep_ok_close
      rw [← hstep]
      exact hs
    refine ⟨evs₁ ++ (stepCmd db xs.length c res₁).evs,
      (runBatch db (xs.length + 1)
          (res₁.set xs.length (stepCmd db xs.length c res₁).slot)
          (if (stepCmd db xs.length c res₁).opened then xs.length :: defs₁
            else defs₁) ys).evs
        ++ ((runBatch db (xs.length + 1)
          (res₁.set xs.length (stepCmd db xs.length c res₁).slot)
          (if (stepCmd db xs.length c res₁).opened then xs.length :: defs₁
            else defs₁) ys).deferred).map Ev.closeCall, ?_, ?_, ?_⟩
    · rw [Batch_split db xs ys c res₁ defs₁ evs₁ hpre,
        runBatch_cons_ok db xs.length c res₁ defs₁ ys hs]
      show evs₁ ++ (((stepCmd db xs.length c res₁).evs ++ _) ++ _) = _
      simp [List.append_assoc]
    · exact List.mem_append.mpr (Or.inr hclose)
    · have h0 := runBatch_evs_idx db xs 0
        (List.replicate (xs ++ c :: ys).length (none : Option V)) []
      rw [hpre] at h0
      intro ev hev j hj
      rcases List.mem_append.mp hev with h | h
      · rcases h0 ev h with ⟨j2, hj2, _, hj3⟩
        rw [hj] at hj2
        injection hj2 with h2
        omega
      · have := stepCmd_evs_idx db xs.length c res₁ ev h
        rw [hj] at this
        injection this with h2
        omega

/-- Witness for the amended claim C3 at a concrete input. -/
theorem c3_cursor_released_witness :
    (runBatch db3 0 (List.replicate 1 (none : Option Nat)) [] []
      = (⟨List.replicate 1 none, none, [], []⟩ : RunOut Nat Nat Nat))
    ∧ cmd3.Affect = 0
    ∧ (db3 0 (resolveArgs cmd3 (List.replicate 1 none))).query
        = Except.ok ⟨[], none, none⟩
    ∧ (Ev.closeCall 0 ∈ (Batch db3 [cmd3]).trace
      ∧ ((stepCmd db3 0 cmd3 (List.replicate 1 none)).err = none →
          ∃ pre post, (Batch db3 [cmd3]).trace = pre ++ post
            ∧ Ev.closeCall 0 ∈ pre
            ∧ ∀ ev ∈ pre, ∀ j, ev.cmdIdx = some j → j ≤ 0)) :=
  ⟨rfl, rfl, rfl,
    c3_cursor_released db3 [] [] cmd3 (List.replicate 1 none) [] []
      ⟨[], none, none⟩ rfl rfl rfl⟩

/-- Claim C5: if processing of the command at index i errors with e — all
commands before it having succeeded — the batch aborts at once: `Batch`
returns that error, the returned results are exactly those accumulated
through command i, and no event of any command with index greater than i
occurs in the whole trace (no later command executes). -/
theorem c5_abort_on_error {V A E R : Type} (db : Nat → List A → DbOut E R)
    (xs ys : List (Command V A E R)) (c : Command V A E R)
    (res₁ : List (Option V)) (defs₁ : List Nat) (evs₁ : List (Ev V A))
    (e : BatchErr E)
    (hpre : runBatch db 0 (List.replicate (xs ++ c :: ys).length none) [] xs
      = ⟨res₁, none, evs₁, defs₁⟩)
    (hstep : (stepCmd db xs.length c res₁).err = some e) :
    (Batch db (xs ++ c :: ys)).err = some e
    ∧ (Batch db (xs ++ c :: ys)).results
        = res₁.set xs.length (stepCmd db xs.length c res₁).slot
    ∧ ∀ ev ∈ (Batch db (xs ++ c :: ys)).trace, ∀ j,
        ev.cmdIdx = some j → j ≤ xs.length := by
  rw [Batch_split db xs ys c res₁ defs₁ evs₁ hpre,
    runBatch_cons_err db xs.length c res₁ defs₁ ys e hstep]
  refine ⟨rfl, rfl, ?_⟩
  have h0 := runBatch_evs_idx db xs 0
    (List.replicate (xs ++ c :: ys).length (none : Option V)) []
  rw [hpre] at h0
  have hdef := runBatch_deferred_bound db xs 0
    (List.replicate (xs ++ c :: ys).length (none : Option V)) []
  rw [hpre] at hdef
  intro ev hev j hj
  rcases List.mem_append.mp hev with h | h
  · rcases h0 ev h with ⟨j2, hj2, _, hj3⟩
    rw [hj] at hj2
    injection hj2 with h2
    omega
  · rcases List.mem_append.mp h with h | h
    · have := stepCmd_evs_idx db xs.length c res₁ ev h
      rw [hj] at this
      injection this with h2
      omega
    · rcases List.mem_map.mp h with ⟨x, hx, rfl⟩
      have hjx : x = j := by
        injection hj
      have hx2 : x = xs.length ∨ x ∈ defs₁ := by
        by_cases ho : (stepCmd db xs.length c res₁).opened
        · rw [if_pos ho] at hx
          rcases List.mem_cons.mp hx with h2 | h2
          · exact Or.inl h2
          · exact Or.inr h2
        · rw [if_neg ho] at hx
          exact Or.inr hx
      rcases hx2 with rfl | h2
      · omega
      · rcases hdef x h2 with h3 | ⟨h4, h5⟩
        · simp at h3
        · omega

/-- Witness for claim C5 at a concrete input: the first of two commands
fails, the second never runs. -/
theorem c5_abort_on_error_witness :
    (runBatch db5 0 (List.replicate 2 (none : Option Nat)) [] []
      = (⟨List.replicate 2 none, none, [], []⟩ : RunOut Nat Nat Nat))
    ∧ (stepCmd db5 0 cmd5 (List.replicate 2 none)).err
        = some (BatchErr.err 5)
    ∧ ((Batch db5 [cmd5, cmd5]).err = some (BatchErr.err 5)
      ∧ (Batch db5 [cmd5, cmd5]).results
          = (List.replicate 2 none).set 0 (stepCmd db5 0 cmd5 (List.replicate 2 none)).slot
      ∧ ∀ ev ∈ (Batch db5 [cmd5, cmd5]).trace, ∀ j,
          ev.cmdIdx = some j → j ≤ 0) :=
  ⟨rfl, rfl,
    c5_abort_on_error db5 [] [cmd5] cmd5 (List.replicate 2 none) [] []
      (BatchErr.err 5) rfl rfl⟩

/-- Claim C4: for a reached command with non-zero Affect whose statement
executes with driver-reported count a: the executor's expectation is
`max(Affect, 0)` (negative Affect means zero rows); when a differs from it
the batch fails with a row-count-mismatch error carrying the expected count,
the actual count and the query text, and the command's result slot stays
unset; and (for a batch ending at this command) the batch succeeds iff a
equals the expectation. -/
theorem c4_affect_check {V A E R : Type} (db : Nat → List A → DbOut E R)
    (xs ys : List (Command V A E R)) (c : Command V A E R)
    (res₁ : List (Option V)) (defs₁ : List Nat) (evs₁ : List (Ev V A))
    (a : Int)
    (hpre : runBatch db 0 (List.replicate (xs ++ c :: ys).length none) [] xs
      = ⟨res₁, none, evs₁, defs₁⟩)
    (ha : c.Affect ≠ 0)
    (hx : (db xs.length (resolveArgs c res₁)).exec = ExecRes.ok a) :
    (max c.Affect 0 ≠ a →
      (Batch db (xs ++ c :: ys)).err
          = some (BatchErr.rowCountMismatch (max c.Affect 0) a c.Query)
        ∧ ((Batch db (xs ++ c :: ys)).results)[xs.length]? = some none)
    ∧ (ys = [] →
        ((Batch db (xs ++ c :: ys)).err = none ↔ max c.Affect 0 = a)) := by
  have hstep : stepCmd db xs.length c res₁
      = writeStep xs.length c.Affect c.Query (resolveArgs c res₁)
          (argsEvents c xs.length res₁) (ExecRes.ok a) := by
    rw [stepCmd_write db xs.length c res₁ ha, hx]
  have herr : (stepCmd db xs.length c res₁).err
      = if max c.Affect 0 ≠ a then
          some (BatchErr.rowCountMismatch (max c.Affect 0) a c.Query)
        else none := by
    rw [hstep, writeStep_ok_err]
  have hslot : (stepCmd db xs.length c res₁).slot = none := by
    rw [hstep, writeStep_slot]
  have hlen : res₁.length = (xs ++ c :: ys).length :=
    runBatch_prefix_length db xs _ res₁ defs₁ evs₁ hpre
  have hilt : xs.length < res₁.length := by
    rw [hlen]
    simp only [List.length_append, List.length_cons]
    omega
  constructor
  · intro hne
    have herr2 : (stepCmd db xs.length c res₁).err
        = some (BatchErr.rowCountMismatch (max c.Affect 0) a c.Query) := by
      rw [herr, if_pos hne]
    rw [Batch_split db xs ys c res₁ defs₁ evs₁ hpre,
      runBatch_cons_err db xs.length c res₁ defs₁ ys _ herr2]
    refine ⟨rfl, ?_⟩
    show ((res₁.set xs.length (stepCmd db xs.length c res₁).slot))[xs.length]?
      = some none
    rw [hslot]
    exact List.getElem?_set_eq_of_lt none hilt
  · intro hys
    subst hys
    by_cases hmax : max c.Affect 0 = a
    · have herr2 : (stepCmd db xs.length c res₁).err = none := by
        rw [herr, if_neg (fun h => h hmax)]
      rw [Batch_split db xs [] c res₁ defs₁ evs₁ hpre,
        runBatch_cons_ok db xs.length c res₁ defs₁ [] herr2,
        runBatch_nil]
      simp [hmax]
    · have herr2 : (stepCmd db xs.length c res₁).err
          = some (BatchErr.rowCountMismatch (max c.Affect 0) a c.Query) := by
        rw [herr, if_pos hmax]
      rw [Batch_split db xs [] c res₁ defs₁ evs₁ hpre,
        runBatch_cons_err db xs.length c res₁ defs₁ [] _ herr2]
      simp [hmax]

/-- Witness for claim C4 at a concrete input: Affect = 2 but 3 rows
affected, so the batch fails with the mismatch error and the slot stays
unset; and success would hold iff the count matched. -/
theorem c4_affect_check_witness :
    (runBatch db4 0 (List.replicate 1 (none : Option Nat)) [] []
      = (⟨List.replicate 1 none, none, [], []⟩ : RunOut Nat Nat Nat))
    ∧ cmd4.Affect ≠ 0
    ∧ (db4 0 (resolveArgs cmd4 (List.replicate 1 none))).exec = ExecRes.ok 3
    ∧ ((max cmd4.Affect 0 ≠ 3 →
        (Batch db4 [cmd4]).err
            = some (BatchErr.rowCountMismatch (max cmd4.Affect 0) 3 cmd4.Query)
          ∧ ((Batch db4 [cmd4]).results)[(0 : Nat)]? = some none)
      ∧ (([] : List (Command Nat Nat Nat Nat)) = [] →
          ((Batch db4 [cmd4]).err = none ↔ max cmd4.Affect 0 = 3))) :=
  ⟨rfl, by decide, rfl,
    c4_affect_check db4 [] [] cmd4 (List.replicate 1 none) [] [] 3
      rfl (by decide) rfl⟩

/-- Claim C10: for a reached read command whose `ReadOne` callback errors on
the first row, or whose `ReadAll` fold errors on some row, the batch returns
that error and the command's result slot stays unset — the `ReadOne` return
value and any partially accumulated `ReadAll` memo are discarded. -/
theorem c10_decode_error_slot_unset {V A E R : Type}
    (db : Nat → List A → DbOut E R) (xs ys : List (Command V A E R))
    (c : Command V A E R) (res₁ : List (Option V)) (defs₁ : List Nat)
    (evs₁ : List (Ev V A)) (q : QueryRes E R) (e : E)
    (hpre : runBatch db 0 (List.replicate (xs ++ c :: ys).length none) [] xs
      = ⟨res₁, none, evs₁, defs₁⟩)
    (ha : c.Affect = 0)
    (hq : (db xs.length (resolveArgs c res₁)).query = Except.ok q)
    (hcase : (∃ g r rs, c.ReadOne = some g ∧ q.rows = r :: rs
        ∧ g r = Except.error e)
      ∨ (c.ReadOne = none ∧ ∃ f, c.ReadAll = some f
          ∧ List.foldlM f c.Init q.rows = Except.error e)) :
    (Batch db (xs ++ c :: ys)).err = some (BatchErr.err e)
    ∧ ((Batch db (xs ++ c :: ys)).results)[xs.length]? = some none := by
  have hstep := stepCmd_read db xs.length c res₁ q ha hq
  have hse : (stepCmd db xs.length c res₁).err = some (BatchErr.err e) := by
    rcases hcase with ⟨g, r, rs, hro, hrows, hg⟩ | ⟨hro, f, hra, hf⟩
    · rw [hstep]
      simp [readStep, hro, hrows, hg]
    · have hfr : (foldRows (A := A) f xs.length q.rows 0 c.Init).1
          = Except.error e := by
        rw [foldRows_fst]
        exact hf
      rw [hstep]
      simp [readStep, hro, hra, hfr]
  have hss : (stepCmd db xs.length c res₁).slot = none := by
    rcases hcase with ⟨g, r, rs, hro, hrows, hg⟩ | ⟨hro, f, hra, hf⟩
    · rw [hstep]
      simp [readStep, hro, hrows, hg]
    · have hfr : (foldRows (A := A) f xs.length q.rows 0 c.Init).1
          = Except.error e := by
        rw [foldRows_fst]
        exact hf
      rw [hstep]
      simp [readStep, hro, hra, hfr]
  have hlen : res₁.length = (xs ++ c :: ys).length :=
    runBatch_prefix_length db xs _ res₁ defs₁ evs₁ hpre
  have hilt : xs.length < res₁.length := by
    rw [hlen]
    simp only [List.length_append, List.length_cons]
    omega
  rw [Batch_split db xs ys c res₁ defs₁ evs₁ hpre,
    runBatch_cons_err db xs.length c res₁ defs₁ ys _ hse]
  refine ⟨rfl, ?_⟩
  show ((res₁.set xs.length (stepCmd db xs.length c res₁).slot))[xs.length]?
    = some none
  rw [hss]
  exact List.getElem?_set_eq_of_lt none hilt

/-- Witness for claim C10 at a concrete input. -/
theorem c10_decode_error_slot_unset_witness :
    (runBatch db10 0 (List.replicate 1 (none : Option Nat)) [] []
      = (⟨List.replicate 1 none, none, [], []⟩ : RunOut Nat Nat Nat))
    ∧ cmd10.Affect = 0
    ∧ (db10 0 (resolveArgs cmd10 (List.replicate 1 none))).query
        = Except.ok ⟨[4], none, none⟩
    ∧ ((Batch db10 [cmd10]).err = some (BatchErr.err 8)
      ∧ ((Batch db10 [cmd10]).results)[(0 : Nat)]? = some none) :=
  ⟨rfl, rfl, rfl,
    c10_decode_error_slot_unset db10 [] [] cmd10 (List.replicate 1 none) [] []
      ⟨[4], none, none⟩ 8 rfl rfl rfl
      (Or.inl ⟨fun _ => Except.error 8, 4, [], rfl, rfl, rfl⟩)⟩

/-- Claim C8: for a reached command with `ArgsFunc` set, `ArgsFunc` is
invoked with a results snapshot in which every slot at index ≥ i is unset
(only commands 0..i-1 can have populated theirs), and the statement reaches
the driver with exactly `ArgsFunc`'s return value — superseding `Args` —
immediately before command i executes. -/
theorem c8_argsfunc_snapshot {V A E R : Type} (db : Nat → List A → DbOut E R)
    (xs ys : List (Command V A E R)) (c : Command V A E R)
    (res₁ : List (Option V)) (defs₁ : List Nat) (evs₁ : List (Ev V A))
    (f : List (Option V) → List A)
    (hpre : runBatch db 0 (List.replicate (xs ++ c :: ys).length none) [] xs
      = ⟨res₁, none, evs₁, defs₁⟩)
    (hf : c.ArgsFunc = some f) :
    (∀ j, xs.length ≤ j → j < (xs ++ c :: ys).length → res₁[j]? = some none)
    ∧ Ev.argsCall xs.length res₁ ∈ (Batch db (xs ++ c :: ys)).trace
    ∧ (c.Affect ≠ 0 →
        Ev.execCall xs.length (f res₁) ∈ (Batch db (xs ++ c :: ys)).trace)
    ∧ (c.Affect = 0 →
        Ev.queryCall xs.length (f res₁) ∈ (Batch db (xs ++ c :: ys)).trace) := by
  have hresolve : resolveArgs c res₁ = f res₁ := by
    simp [resolveArgs, hf]
  refine ⟨runBatch_prefix_unset db xs _ res₁ defs₁ evs₁ hpre, ?_, ?_, ?_⟩
  · rcases stepCmd_evs_prefix db xs.length c res₁ with ⟨t, ht⟩
    apply Batch_trace_of_step db xs ys c res₁ defs₁ evs₁ hpre
    rw [ht]
    apply List.mem_append.mpr
    left
    simp [argsEvents, hf]
  · intro ha
    apply Batch_trace_of_step db xs ys c res₁ defs₁ evs₁ hpre
    rw [stepCmd_write db xs.length c res₁ ha, writeStep_evs, hresolve]
    exact List.mem_append.mpr (Or.inr (List.mem_singleton.mpr rfl))
  · intro ha
    apply Batch_trace_of_step db xs ys c res₁ defs₁ evs₁ hpre
    cases hq : (db xs.length (resolveArgs c res₁)).query with
    | error e =>
      have hst : stepCmd db xs.length c res₁ = ⟨none, some (BatchErr.err e),
          argsEvents c xs.length res₁
            ++ [Ev.queryCall xs.length (resolveArgs c res₁)], false⟩ := by
        simp [stepCmd, ha, hq]
      rw [hst, hresolve]
      exact List.mem_append.mpr (Or.inr (List.mem_singleton.mpr rfl))
    | ok q =>
      rw [stepCmd_read db xs.length c res₁ q ha hq]
      rcases readStep_evs_prefix xs.length c q (argsEvents c xs.length res₁
        ++ [Ev.queryCall xs.length (resolveArgs c res₁)]) with ⟨t, ht⟩
      rw [ht, hresolve]
      apply List.mem_append.mpr
      left
      exact List.mem_append.mpr (Or.inr (List.mem_singleton.mpr rfl))

/-- Witness for claim C8 at a concrete input. -/
theorem c8_argsfunc_snapshot_witness :
    (runBatch db8 0 (List.replicate 1 (none : Option Nat)) [] []
      = (⟨List.replicate 1 none, none, [], []⟩ : RunOut Nat Nat Nat))
    ∧ cmd8.ArgsFunc = some (fun r => [r.length])
    ∧ ((∀ j, 0 ≤ j → j < [cmd8].length →
          (List.replicate 1 (none : Option Nat))[j]? = some none)
      ∧ Ev.argsCall 0 (List.replicate 1 none) ∈ (Batch db8 [cmd8]).trace
      ∧ (cmd8.Affect ≠ 0 →
          Ev.execCall 0 [(List.replicate 1 (none : Option Nat)).length]
            ∈ (Batch db8 [cmd8]).trace)
      ∧ (cmd8.Affect = 0 →
          Ev.queryCall 0 [(List.replicate 1 (none : Option Nat)).length]
            ∈ (Batch db8 [cmd8]).trace)) :=
  ⟨rfl, rfl,
    c8_argsfunc_snapshot db8 [] [] cmd8 (List.replicate 1 none) [] []
      (fun r => [r.length]) rfl rfl⟩

theorem countP_readOne_zero_of_closes {V A : Type} (i : Nat) (d : List Nat) :
    ((d.map (Ev.closeCall (V := V) (A := A))).countP (isReadOneEv i)) = 0 := by
  rw [List.countP_eq_zero]
  intro e he ht
  rcases List.mem_map.mp he with ⟨x, _, rfl⟩
  rw [isReadOneEv_true_iff] at ht
  cases ht

theorem countP_readAll_zero_of_closes {V A : Type} (i : Nat) (d : List Nat) :
    ((d.map (Ev.closeCall (V := V) (A := A))).countP (isReadAllEv i)) = 0 := by
  rw [List.countP_eq_zero]
  intro e he ht
  rcases List.mem_map.mp he with ⟨x, _, rfl⟩
  rw [isReadAllEv_true_iff] at ht
  rcases ht with ⟨k, hk⟩
  cases hk

/-- Claim C7: for a reached read command with `ReadOne` set, the `ReadOne`
callback is invoked at most once in the whole run; the `ReadAll` callback is
never invoked for that command (so when both are set, `ReadOne` takes
precedence); and when the result set is empty the command's result slot
stays unset. -/
theorem c7_readOne_at_most_once {V A E R : Type} (db : Nat → List A → DbOut E R)
    (xs ys : List (Command V A E R)) (c : Command V A E R)
    (res₁ : List (Option V)) (defs₁ : List Nat) (evs₁ : List (Ev V A))
    (g : R → Except E V)
    (hpre : runBatch db 0 (List.replicate (xs ++ c :: ys).length none) [] xs
      = ⟨res₁, none, evs₁, defs₁⟩)
    (ha : c.Affect = 0)
    (hro : c.ReadOne = some g) :
    ((Batch db (xs ++ c :: ys)).trace).countP (isReadOneEv xs.length) ≤ 1
    ∧ ((Batch db (xs ++ c :: ys)).trace).countP (isReadAllEv xs.length) = 0
    ∧ (∀ q, (db xs.length (resolveArgs c res₁)).query = Except.ok q →
        q.rows = [] →
        ((Batch db (xs ++ c :: ys)).results)[xs.length]? = some none) := by
  have h0 := runBatch_evs_idx db xs 0
    (List.replicate (xs ++ c :: ys).length (none : Option V)) []
  rw [hpre] at h0
  have hevs₁_one : evs₁.countP (isReadOneEv xs.length) = 0 := by
    rw [List.countP_eq_zero]
    intro e he ht
    rw [isReadOneEv_true_iff] at ht
    subst ht
    rcases h0 _ he with ⟨j, hj, _, hlt⟩
    simp [Ev.cmdIdx] at hj
    omega
  have hevs₁_all : evs₁.countP (isReadAllEv xs.length) = 0 := by
    rw [List.countP_eq_zero]
    intro e he ht
    rw [isReadAllEv_true_iff] at ht
    rcases ht with ⟨k, rfl⟩
    rcases h0 _ he with ⟨j, hj, _, hlt⟩
    simp [Ev.cmdIdx] at hj
    omega
  have hstep_one := stepCmd_countP_readOne db xs.length c res₁
  have hstep_all := stepCmd_countP_readAll_of_readOne db xs.length c res₁ g hro
  refine ⟨?_, ?_, ?_⟩
  · rw [Batch_split db xs ys c res₁ defs₁ evs₁ hpre]
    cases hs : (stepCmd db xs.length c res₁).err with
    | some e =>
      rw [runBatch_cons_err db xs.length c res₁ defs₁ ys e hs]
      show (evs₁ ++ ((stepCmd db xs.length c res₁).evs ++ _)).countP _ ≤ 1
      rw [List.countP_append, List.countP_append, hevs₁_one,
        countP_readOne_zero_of_closes]
      omega
    | none =>
      rw [runBatch_cons_ok db xs.length c res₁ defs₁ ys hs]
      have hv := runBatch_evs_idx db ys (xs.length + 1)
        (res₁.set xs.length (stepCmd db xs.length c res₁).slot)
        (if (stepCmd db xs.length c res₁).opened then xs.length :: defs₁
          else defs₁)
      have hv_one : ((runBatch db (xs.length + 1)
          (res₁.set xs.length (stepCmd db xs.length c res₁).slot)
          (if (stepCmd db xs.length c res₁).opened then xs.length :: defs₁
            else defs₁) ys).evs).countP (isReadOneEv xs.length) = 0 := by
        rw [List.countP_eq_zero]
        intro e he ht
        rw [isReadOneEv_true_iff] at ht
        subst ht
        rcases hv _ he with ⟨j, hj, hge, _⟩
        simp [Ev.cmdIdx] at hj
        omega
      show (evs₁ ++ (((stepCmd db xs.length c res₁).evs ++ _) ++ _)).countP _ ≤ 1
      rw [List.countP_append, List.countP_append, List.countP_append,
        hevs₁_one, hv_one, countP_readOne_zero_of_closes]
      omega
  · rw [Batch_split db xs ys c res₁ defs₁ evs₁ hpre]
    cases hs : (stepCmd db xs.length c res₁).err with
    | some e =>
      rw [runBatch_cons_err db xs.length c res₁ defs₁ ys e hs]
      show (evs₁ ++ ((stepCmd db xs.length c res₁).evs ++ _)).countP _ = 0
      rw [List.countP_append, List.countP_append, hevs₁_all, hstep_all,
        countP_readAll_zero_of_closes]
    | none =>
      rw [runBatch_cons_ok db xs.length c res₁ defs₁ ys hs]
      have hv := runBatch_evs_idx db ys (xs.length + 1)
        (res₁.set xs.length (stepCmd db xs.length c res₁).slot)
        (if (stepCmd db xs.length c res₁).opened then xs.length :: defs₁
          else defs₁)
      have hv_all : ((runBatch db (xs.length + 1)
          (res₁.set xs.length (stepCmd db xs.length c res₁).slot)
          (if (stepCmd db xs.length c res₁).opened then xs.length :: defs₁
            else defs₁) ys).evs).countP (isReadAllEv xs.length) = 0 := by
        rw [List.countP_eq_zero]
        intro e he ht
        rw [isReadAllEv_true_iff] at ht
        rcases ht with ⟨k, rfl⟩
        rcases hv _ he with ⟨j, hj, hge, _⟩
        simp [Ev.cmdIdx] at hj
        omega
      show (evs₁ ++ (((stepCmd db xs.length c res₁).evs ++ _) ++ _)).countP _ = 0
      rw [List.countP_append, List.countP_append, List.countP_append,
        hevs₁_all, hstep_all, hv_all, countP_readAll_zero_of_closes]
  · intro q hq2 hrows
    have hslot : (stepCmd db xs.length c res₁).slot = none := by
      rw [stepCmd_read db xs.length c res₁ q ha hq2]
      simp only [readStep, hro, hrows]
      exact afterRead_slot ..
    have hlen : res₁.length = (xs ++ c :: ys).length :=
      runBatch_prefix_length db xs _ res₁ defs₁ evs₁ hpre
    have hilt : xs.length < res₁.length := by
      rw [hlen]
      simp only [List.length_append, List.length_cons]
      omega
    have hset : ((res₁.set xs.length
        (stepCmd db xs.length c res₁).slot))[xs.length]? = some none := by
      rw [hslot]
      exact List.getElem?_set_eq_of_lt none hilt
    rw [Batch_split db xs ys c res₁ defs₁ evs₁ hpre]
    cases hs : (stepCmd db xs.length c res₁).err with
    | some e =>
      rw [runBatch_cons_err db xs.length c res₁ defs₁ ys e hs]
      exact hset
    | none =>
      rw [runBatch_cons_ok db xs.length c res₁ defs₁ ys hs]
      show ((runBatch db (xs.length + 1) _ _ ys).results)[xs.length]? = some none
      rw [runBatch_untouched db ys (xs.length + 1) _ _ xs.length
        (Or.inl (by omega))]
      exact hset

/-- Witness for claim C7 at a concrete input. -/
theorem c7_readOne_at_most_once_witness :
    (runBatch db7 0 (List.replicate 1 (none : Option Nat)) [] []
      = (⟨List.replicate 1 none, none, [], []⟩ : RunOut Nat Nat Nat))
    ∧ cmd7.Affect = 0
    ∧ cmd7.ReadOne = some (fun r => Except.ok r)
    ∧ (((Batch db7 [cmd7]).trace).countP (isReadOneEv 0) ≤ 1
      ∧ ((Batch db7 [cmd7]).trace).countP (isReadAllEv 0) = 0
      ∧ (∀ q, (db7 0 (resolveArgs cmd7 (List.replicate 1 none))).query
            = Except.ok q → q.rows = [] →
          ((Batch db7 [cmd7]).results)[(0 : Nat)]? = some none)) :=
  ⟨rfl, rfl, rfl,
    c7_readOne_at_most_once db7 [] [] cmd7 (List.replicate 1 none) [] []
      (fun r => Except.ok r) rfl rfl rfl⟩

theorem filter_readAll_nil_of_closes {V A : Type} (i : Nat) (d : List Nat) :
    (d.map (Ev.closeCall (V := V) (A := A))).filter (isReadAllEv i) = [] := by
  rw [List.filter_eq_nil_iff]
  intro e he ht
  rcases List.mem_map.mp he with ⟨x, _, rfl⟩
  rw [isReadAllEv_true_iff] at ht
  rcases ht with ⟨k, hk⟩
  cases hk

/-- Claim C6: for a reached read command with `ReadAll` set (and `ReadOne`
unset) whose fold over the cursor's rows succeeds with value v, the value
stored in the command's result slot is exactly the left fold of `ReadAll`
over the rows starting from `Init` (`Init` itself for zero rows), and the
trace's `ReadAll` invocations for this command are exactly one per row, in
cursor order. -/
theorem c6_readAll_fold {V A E R : Type} (db : Nat → List A → DbOut E R)
    (xs ys : List (Command V A E R)) (c : Command V A E R)
    (res₁ : List (Option V)) (defs₁ : List Nat) (evs₁ : List (Ev V A))
    (q : QueryRes E R) (f : V → R → Except E V) (v : V)
    (hpre : runBatch db 0 (List.replicate (xs ++ c :: ys).length none) [] xs
      = ⟨res₁, none, evs₁, defs₁⟩)
    (ha : c.Affect = 0)
    (hro : c.ReadOne = none)
    (hra : c.ReadAll = some f)
    (hq : (db xs.length (resolveArgs c res₁)).query = Except.ok q)
    (hfold : List.foldlM f c.Init q.rows = Except.ok v) :
    ((Batch db (xs ++ c :: ys)).results)[xs.length]? = some (some v)
    ∧ ((Batch db (xs ++ c :: ys)).trace).filter (isReadAllEv xs.length)
        = (List.range q.rows.length).map (Ev.readAllCall xs.length) := by
  have hfr1 : (foldRows (A := A) f xs.length q.rows 0 c.Init).1
      = Except.ok v := by
    rw [foldRows_fst]
    exact hfold
  have hfr2 : (foldRows (A := A) f xs.length q.rows 0 c.Init).2
      = (List.range' 0 q.rows.length).map (Ev.readAllCall xs.length) :=
    foldRows_evs_ok f xs.length q.rows 0 c.Init v hfold
  have hslot : (stepCmd db xs.length c res₁).slot = some v := by
    rw [stepCmd_read db xs.length c res₁ q ha hq]
    simp only [readStep, hro, hra, hfr1]
    exact afterRead_slot ..
  have hfiltermap : ((List.range' 0 q.rows.length).map
        (Ev.readAllCall (V := V) (A := A) xs.length)).filter
          (isReadAllEv xs.length)
      = (List.range' 0 q.rows.length).map (Ev.readAllCall xs.length) := by
    rw [List.filter_eq_self]
    intro e he
    rcases List.mem_map.mp he with ⟨k, _, rfl⟩
    simp [isReadAllEv]
  have hbasef : ((argsEvents c xs.length res₁
      ++ [Ev.queryCall xs.length (resolveArgs c res₁)]).filter
        (isReadAllEv xs.length)) = [] := by
    rw [List.filter_eq_nil_iff]
    intro e he ht
    rw [isReadAllEv_true_iff] at ht
    rcases ht with ⟨k, rfl⟩
    rcases List.mem_append.mp he with h | h
    · cases haf : c.ArgsFunc <;> simp [argsEvents, haf] at h
    · simp at h
  have hstepf : (((stepCmd db xs.length c res₁).evs).filter
        (isReadAllEv xs.length))
      = (List.range' 0 q.rows.length).map (Ev.readAllCall xs.length) := by
    rw [stepCmd_read db xs.length c res₁ q ha hq]
    simp only [readStep, hro, hra, hfr1]
    rcases afterRead_evs xs.length q (some v)
        ((argsEvents c xs.length res₁
          ++ [Ev.queryCall xs.length (resolveArgs c res₁)])
          ++ (foldRows (A := A) f xs.length q.rows 0 c.Init).2) with h | h <;>
      rw [h]
    · rw [List.filter_append, hbasef, hfr2, hfiltermap]
      simp
    · rw [List.filter_append, List.filter_append, hbasef, hfr2, hfiltermap]
      simp [isReadAllEv]
  have h0 := runBatch_evs_idx db xs 0
    (List.replicate (xs ++ c :: ys).length (none : Option V)) []
  rw [hpre] at h0
  have hevs₁f : evs₁.filter (isReadAllEv xs.length) = [] := by
    rw [List.filter_eq_nil_iff]
    intro e he ht
    rw [isReadAllEv_true_iff] at ht
    rcases ht with ⟨k, rfl⟩
    rcases h0 _ he with ⟨j, hj, _, hlt⟩
    simp [Ev.cmdIdx] at hj
    omega
  have hlen : res₁.length = (xs ++ c :: ys).length :=
    runBatch_prefix_length db xs _ res₁ defs₁ evs₁ hpre
  have hilt : xs.length < res₁.length := by
    rw [hlen]
    simp only [List.length_append, List.length_cons]
    omega
  have hset : ((res₁.set xs.length
      (stepCmd db xs.length c res₁).slot))[xs.length]? = some (some v) := by
    rw [hslot]
    exact List.getElem?_set_eq_of_lt (some v) hilt
  constructor
  · rw [Batch_split db xs ys c res₁ defs₁ evs₁ hpre]
    cases hs : (stepCmd db xs.length c res₁).err with
    | some e =>
      rw [runBatch_cons_err db xs.length c res₁ defs₁ ys e hs]
      exact hset
    | none =>
      rw [runBatch_cons_ok db xs.length c res₁ defs₁ ys hs]
      show ((runBatch db (xs.length + 1) _ _ ys).results)[xs.length]?
        = some (some v)
      rw [runBatch_untouched db ys (xs.length + 1) _ _ xs.length
        (Or.inl (by omega))]
      exact hset
  · rw [Batch_split db xs ys c res₁ defs₁ evs₁ hpre]
    cases hs : (stepCmd db xs.length c res₁).err with
    | some e =>
      rw [runBatch_cons_err db xs.length c res₁ defs₁ ys e hs]
      show ((evs₁ ++ ((stepCmd db xs.length c res₁).evs ++ _)).filter _) = _
      rw [List.filter_append, List.filter_append, hevs₁f, hstepf,
        filter_readAll_nil_of_closes]
      simp [List.range_eq_range']
    | none =>
      rw [runBatch_cons_ok db xs.length c res₁ defs₁ ys hs]
      have hv := runBatch_evs_idx db ys (xs.length + 1)
        (res₁.set xs.length (stepCmd db xs.length c res₁).slot)
        (if (stepCmd db xs.length c res₁).opened then xs.length :: defs₁
          else defs₁)
      have hvf : (((runBatch db (xs.length + 1)
          (res₁.set xs.length (stepCmd db xs.length c res₁).slot)
          (if (stepCmd db xs.length c res₁).opened then xs.length :: defs₁
            else defs₁) ys).evs).filter (isReadAllEv xs.length)) = [] := by
        rw [List.filter_eq_nil_iff]
        intro e he ht
        rw [isReadAllEv_true_iff] at ht
        rcases ht with ⟨k, rfl⟩
        rcases hv _ he with ⟨j, hj, hge, _⟩
        simp [Ev.cmdIdx] at hj
        omega
      show ((evs₁ ++ (((stepCmd db xs.length c res₁).evs ++ _) ++ _)).filter _) = _
      rw [List.filter_append, List.filter_append, List.filter_append,
        hevs₁f, hstepf, hvf, filter_readAll_nil_of_closes]
      simp [List.range_eq_range']

/-- Witness for claim C6 at a concrete input: fold of three rows yields 6,
one `ReadAll` invocation per row in order. -/
theorem c6_readAll_fold_witness :
    (runBatch db6 0 (List.replicate 1 (none : Option Nat)) [] []
      = (⟨List.replicate 1 none, none, [], []⟩ : RunOut Nat Nat Nat))
    ∧ cmd6.Affect = 0
    ∧ cmd6.ReadOne = none
    ∧ cmd6.ReadAll = some (fun m r => Except.ok (m + r))
    ∧ (db6 0 (resolveArgs cmd6 (List.replicate 1 none))).query
        = Except.ok ⟨[1, 2, 3], none, none⟩
    ∧ List.foldlM (fun m r => (Except.ok (m + r) : Except Nat Nat)) cmd6.Init
        [1, 2, 3] = Except.ok 6
    ∧ (((Batch db6 [cmd6]).results)[(0 : Nat)]? = some (some 6)
      ∧ ((Batch db6 [cmd6]).trace).filter (isReadAllEv 0)
          = (List.range 3).map (Ev.readAllCall 0)) :=
  ⟨rfl, rfl, rfl, rfl, rfl, rfl,
    c6_readAll_fold db6 [] [] cmd6 (List.replicate 1 none) [] []
      ⟨[1, 2, 3], none, none⟩ (fun m r => Except.ok (m + r)) 6
      rfl rfl rfl rfl rfl rfl⟩
